import Mathlib

/-!
# HSA receipt manager: selection engine, receipt file lifecycle, usage toggle

A shallow embedding of `api-go/internal/subset_sum.go`, `api-go/internal/handlers.go`
and of the file lifecycle code of `api-go/main.go`, followed by the properties
proved about them.  Amounts are exact rationals.
-/

set_option autoImplicit false

namespace HSA

/-! ## Selection engine (`internal/subset_sum.go`) -/

/-- The Go `state` struct: a cumulative sum and the index list of one subset. -/
structure state where
  sum : ℚ
  indices : List Nat
  deriving DecidableEq, Repr

/-- The body of the inner loop `for _, s := range dp` (lines 16-29): `best` is replaced when
the extended sum stays within the target and is strictly closer to it, and the extended state
is appended to `newdp` in every case. -/
def innerLoop (target a : ℚ) (i : Nat) : List state → state × List state → state × List state
  | [], acc => acc
  | s :: rest, (best, newdp) =>
    let ns := s.sum + a
    let best1 : state :=
      if ns ≤ target ∧ (target - ns) < (target - best.sum) then ⟨ns, s.indices ++ [i]⟩ else best
    innerLoop target a i rest (best1, newdp ++ [⟨ns, s.indices ++ [i]⟩])

/-- The outer loop `for i, a := range amounts` (lines 12-31): `newdp` starts as a copy of `dp`,
the inner loop ranges over the old `dp`, and `dp` becomes `newdp`. -/
def outerLoop (target : ℚ) : List ℚ → Nat → state × List state → state × List state
  | [], _, acc => acc
  | a :: rest, i, (best, dp) => outerLoop target rest (i + 1) (innerLoop target a i dp (best, dp))

/-- The pair `(best, dp)` when the loops of `SubsetSum` are over.  `best` starts as the zero
value `state{}` and `dp` as the single state `{0, []}`. -/
def SubsetSumRun (amounts : List ℚ) (target : ℚ) : state × List state :=
  outerLoop target amounts 0 (⟨0, []⟩, [⟨0, []⟩])

/-- The function `SubsetSum(amounts, target)`: it returns `best.indices`. -/
def SubsetSum (amounts : List ℚ) (target : ℚ) : List Nat :=
  (SubsetSumRun amounts target).1.indices

/-- The state collection `dp` when `SubsetSum` returns.  Every state the inner loop visits is
appended to it at the moment of the visit and nothing else is, so it lists the initial state
followed by the visited states in the order of their visits. -/
def SubsetSumDp (amounts : List ℚ) (target : ℚ) : List state :=
  (SubsetSumRun amounts target).2

/-- The sum of the amounts at the positions of an index list. -/
def sumAt (amounts : List ℚ) (S : List Nat) : ℚ :=
  (S.map (fun i => amounts.getD i 0)).sum

/-- The binary code of an index list, the sum of `2^j` over its members. -/
def code (S : List Nat) : Nat :=
  (S.map (fun j => 2 ^ j)).sum


/-- The update of `best` at one visited state (the `if` of lines 18-23). -/
def upd (target : ℚ) (best c : state) : state :=
  if c.sum ≤ target ∧ (target - c.sum) < (target - best.sum) then c else best

/-- The extension of a state by item `i` of amount `a` (lines 17, 25-28). -/
def ext (a : ℚ) (i : Nat) (s : state) : state := ⟨s.sum + a, s.indices ++ [i]⟩

/-- The state of an index list: its sum and the list itself. -/
def stateOf (amounts : List ℚ) (S : List Nat) : state := ⟨sumAt amounts S, S⟩

/-- The full collection for the first `k` items: a state for each sublist of `0..k-1`. -/
def allStates (amounts : List ℚ) (k : Nat) : List state :=
  (List.range k).sublists.map (stateOf amounts)


/-! ## Receipts (`internal/models.go`) and the deduction handler (`internal/handlers.go`) -/

/-- A `time.Time` value: the instant in Unix seconds and its calendar reading. -/
structure Time where
  unix : Int
  year : Int
  month : Nat
  day : Nat
  deriving DecidableEq, Repr

/-- The method `Unix()` of `time.Time`. -/
def Time.Unix (t : Time) : Int := t.unix

/-- The method `Year()` of `time.Time`. -/
def Time.Year (t : Time) : Int := t.year

/-- The constant `HSAStatusYes`. -/
def HSAStatusYes : String := "Yes"

/-- The constant `HSAStatusNo`. -/
def HSAStatusNo : String := "No"

/-- The constant `HSAStatusPartially`. -/
def HSAStatusPartially : String := "Partially"

/-- The constant `HOUSEHOLD_USER`. -/
def HOUSEHOLD_USER : String := "household"

/-- The Go `Receipt` struct.  The pointer fields `UsedDate` and `UseReason` are options,
`nil` being `none`. -/
structure Receipt where
  ID : Int
  UserID : String
  Vendor : String
  TotalAmount : ℚ
  Date : Time
  HSAQualified : Bool
  HSAStatus : String
  ImagePath : String
  ImageHash : String
  RawText : String
  Used : Bool
  UsedDate : Option Time
  UseReason : Option String
  CreatedAt : Time
  deriving DecidableEq

/-- The loop `for i, idx := range indices { selected[i] = receipts[idx] }` of `DeductHandler`
(lines 58-61).  The result is `none` when an index is out of range, where Go panics. -/
def selectReceipts (receipts : List Receipt) : List Nat → Option (List Receipt)
  | [] => some []
  | idx :: rest =>
    match receipts[idx]? with
    | none => none
    | some r =>
      match selectReceipts receipts rest with
      | none => none
      | some sel => some (r :: sel)

/-- The handler `DeductHandler` from the point where `GetEligibleReceipts` has returned
`receipts` (lines 51-61): the amounts are the `TotalAmount` fields, the indices come from
`SubsetSum` with the requested amount as target, and the answer is the selected receipts. -/
def DeductHandler (receipts : List Receipt) (amount : ℚ) : Option (List Receipt) :=
  selectReceipts receipts (SubsetSum (receipts.map (fun r => r.TotalAmount)) amount)

/-! ## Paths (`path/filepath` of the Go standard library, Unix) and `getReceiptFilePath`

`main.go` builds every path with `filepath.Join`, which ends in `filepath.Clean`.  Both are
embedded here from the Go standard library, for the Unix separator and without volume names.
A Go string is a byte sequence; `Clean` only tests bytes against `/` and `.`, which never occur
inside a multi-byte UTF-8 character, so the functions are run on the character list. -/

/-- Whether an element ends at the front of the unread input: the test
`r+1 == n || os.IsPathSeparator(path[r+1])` of `Clean`, on the input after `path[r]`. -/
def endsElem : List Char → Bool
  | [] => true
  | c :: _ => c == '/'

/-- The backtracking of the buffer length in the `..` case of `Clean`: the loop
`for out.w > dotdot && !os.IsPathSeparator(out.index(out.w)) { out.w-- }`. -/
def backtrack (out : List Char) (dotdot : Nat) : Nat → Nat
  | 0 => 0
  | w + 1 =>
    if w + 1 > dotdot ∧ out.getD (w + 1) '/' ≠ '/' then backtrack out dotdot w else w + 1

/-- The `..` case of `Clean` on the buffer `out` and the index `dotdot`: backtrack to the last
separator when possible, else append `..` when the path is not rooted. -/
def dotdotStep (rooted : Bool) (out : List Char) (dotdot : Nat) : List Char × Nat :=
  if out.length > dotdot then
    (out.take (backtrack out dotdot (out.length - 1)), dotdot)
  else if !rooted then
    let out1 := (if out.length > 0 then out ++ ['/'] else out) ++ ['.', '.']
    (out1, out1.length)
  else (out, dotdot)

/-- The default case of `Clean`: a separator is appended when the buffer holds more than the
leading slash, then the element is copied. -/
def appendElem (rooted : Bool) (out : List Char) (e : List Char) : List Char :=
  (if (rooted && out.length != 1) || (!rooted && out.length != 0) then out ++ ['/'] else out)
    ++ e

/-- One iteration of the loop `for r < n` of `Clean` (the `switch`), on the character
`c = path[r]` and the input `rest` after it: the unread input and the state `(out, dotdot)`
after the iteration. -/
def cleanStep (rooted : Bool) (c : Char) (rest : List Char) (st : List Char × Nat) :
    List Char × (List Char × Nat) :=
  if c = '/' then (rest, st)
  else if c = '.' ∧ endsElem rest = true then (rest, st)
  else if c = '.' ∧ rest.head? = some '.' ∧ endsElem rest.tail = true then
    (rest.tail, dotdotStep rooted st.1 st.2)
  else
    ((c :: rest).dropWhile (fun x => x != '/'),
      (appendElem rooted st.1 ((c :: rest).takeWhile (fun x => x != '/')), st.2))

/-- The loop `for r < n` of `Clean`.  The second argument bounds the number of iterations, the
third is the unread input `path[r:]`, the state is the buffer `out` with the index `dotdot`.
Every iteration reads at least one character, so `n` iterations are enough. -/
def cleanLoop (rooted : Bool) : Nat → List Char → List Char × Nat → List Char × Nat
  | 0, _, st => st
  | _ + 1, [], st => st
  | n + 1, c :: rest, st =>
    cleanLoop rooted n (cleanStep rooted c rest st).1 (cleanStep rooted c rest st).2

/-- The loop of `Clean` with as many iterations as the input has characters. -/
def cleanRun (rooted : Bool) (path : List Char) (st : List Char × Nat) : List Char × Nat :=
  cleanLoop rooted path.length path st

/-- The state of `Clean` when its loop is over, for a non-empty path. -/
def cleanState (path : List Char) : List Char × Nat :=
  let rooted := path.head? == some '/'
  if rooted then cleanLoop true path.length (path.drop 1) (['/'], 1)
  else cleanLoop false path.length path ([], 0)

/-- The function `filepath.Clean` on character lists. -/
def cleanChars (path : List Char) : List Char :=
  if path = [] then ['.']
  else
    let out := (cleanState path).1
    if out.length = 0 then ['.'] else out

/-- The function `filepath.Clean`. -/
def Clean (path : String) : String := String.mk (cleanChars path.data)

/-- The function `filepath.Join`: the elements from the first non-empty one on are joined with
the separator and the result is cleaned; without a non-empty element the result is empty. -/
def Join (elem : List String) : String :=
  match elem.dropWhile (fun e => e == "") with
  | [] => ""
  | e :: rest => Clean ("/".intercalate (e :: rest))

/-- The function `filepath.Dir`: `Clean` of the path up to and including its last separator. -/
def Dir (path : String) : String :=
  Clean (String.mk (path.data.reverse.dropWhile (fun x => x != '/')).reverse)

/-- The function `filepath.Base`: the last element of the path, after the trailing separators
are removed; `.` for the empty path and `/` for a path of separators only. -/
def Base (path : String) : String :=
  if path = "" then "."
  else
    let p := (path.data.reverse.dropWhile (fun x => x == '/')).reverse
    let last := (p.reverse.takeWhile (fun x => x != '/')).reverse
    if last = [] then "/" else String.mk last

/-- An ordinary path element: not empty, without separator, and neither `.` nor `..`. -/
def isElem (e : List Char) : Prop :=
  e ≠ [] ∧ '/' ∉ e ∧ e ≠ ['.'] ∧ e ≠ ['.', '.']

instance (e : List Char) : Decidable (isElem e) := by
  unfold isElem
  infer_instance

/-- A path that the loop of `Clean` rebuilds as it is, and that is neither empty nor the
root `/`. -/
def stablePath (p : List Char) : Prop :=
  p ≠ [] ∧ (cleanState p).1 = p ∧ p ≠ ['/']

instance (p : List Char) : Decidable (stablePath p) := by
  unfold stablePath
  infer_instance

/-- The rendering `fmt.Sprintf("%d", year)`: the decimal digits, after a minus sign for a
negative number. -/
def Sprintf_d (year : Int) : String := toString year

/-- The function `getReceiptFilePath` (`main.go`, lines 94-105). -/
def getReceiptFilePath (baseDir : String) (year : Int) (filename : String) (used : Bool) :
    String :=
  let subdir :=
    if used then Join ["used", Sprintf_d year] else Join ["unused", Sprintf_d year]
  let fullDir := Join [baseDir, subdir]
  Join [fullDir, filename]

/-! ## The file system and `moveReceiptFile` (`main.go`) -/

/-- The file-system primitives that `main.go` calls, over a state `σ` and file handles `H`.
Each takes the state before the call and gives the state after it, with the error of the call
(`none` when it succeeds) or the handle it opens.  `Copy dst src` is `io.Copy(dst, src)` and
`Write f data` is `f.Write(data)`. -/
structure FileSystem (σ : Type) (H : Type) where
  MkdirAll : String → σ → Option String × σ
  Rename : String → String → σ → Option String × σ
  Open : String → σ → Except String H × σ
  Create : String → σ → Except String H × σ
  Copy : H → H → σ → Option String × σ
  Write : H → List Nat → σ → Option String × σ
  Close : H → σ → σ
  Remove : String → σ → Option String × σ

/-- The function `ensureDirectoryExists` (lines 107-111). -/
def ensureDirectoryExists {σ H : Type} (fs : FileSystem σ H) (path : String) (s : σ) :
    Option String × σ :=
  fs.MkdirAll (Dir path) s

/-- The function `moveReceiptFile` (lines 113-157).  The result is the Go pair
`(string, error)` with the state of the file system after the call.  The deferred
`dst.Close()` and `src.Close()` run when the function returns, the last deferred first. -/
def moveReceiptFile {σ H : Type} (fs : FileSystem σ H) (oldPath baseDir : String) (year : Int)
    (filename : String) (toUsed : Bool) (s : σ) : (String × Option String) × σ :=
  let newPath := getReceiptFilePath baseDir year filename toUsed
  if oldPath = newPath then ((newPath, none), s)
  else
    match ensureDirectoryExists fs newPath s with
    | (some err, s1) =>
      (("", some ("failed to create destination directory: " ++ err)), s1)
    | (none, s1) =>
      match fs.Rename oldPath newPath s1 with
      | (none, s2) => ((newPath, none), s2)
      | (some _, s2) =>
        match fs.Open oldPath s2 with
        | (Except.error err, s3) => (("", some ("failed to open source file: " ++ err)), s3)
        | (Except.ok src, s3) =>
          match fs.Create newPath s3 with
          | (Except.error err, s4) =>
            (("", some ("failed to create destination file: " ++ err)), fs.Close src s4)
          | (Except.ok dst, s4) =>
            match fs.Copy dst src s4 with
            | (some err, s5) =>
              (("", some ("failed to copy file: " ++ err)), fs.Close src (fs.Close dst s5))
            | (none, s5) =>
              ((newPath, none), fs.Close src (fs.Close dst (fs.Remove oldPath s5).2))

/-- Which primitives of the example file system fail. -/
structure Faults where
  mkdir : Bool
  rename : Bool
  openSrc : Bool
  create : Bool
  copy : Bool
  write : Bool
  remove : Bool
  deriving DecidableEq

/-- No primitive fails. -/
def noFaults : Faults := ⟨false, false, false, false, false, false, false⟩

/-- An example file system.  Its state is the journal of the calls made so far, a handle is the
path it was opened on, and a primitive fails exactly when its flag is set. -/
def journalFS (f : Faults) : FileSystem (List String) String where
  MkdirAll p s := (if f.mkdir then some "mkdir refused" else none, s ++ ["mkdir " ++ p])
  Rename a b s :=
    (if f.rename then some "cross-device link" else none, s ++ ["rename " ++ a ++ " " ++ b])
  Open p s := (if f.openSrc then Except.error "no such file" else Except.ok p, s ++ ["open " ++ p])
  Create p s :=
    (if f.create then Except.error "read-only" else Except.ok p, s ++ ["create " ++ p])
  Copy dst src s :=
    (if f.copy then some "no space left" else none, s ++ ["copy " ++ src ++ " " ++ dst])
  Write h _ s := (if f.write then some "no space left" else none, s ++ ["write " ++ h])
  Close h s := s ++ ["close " ++ h]
  Remove p s := (if f.remove then some "busy" else none, s ++ ["remove " ++ p])

/-! ## The record store (`internal/db.go`)

The table `receipts` is a list of rows in storage order.  The store is taken to be reachable:
a statement fails only as its SQL says (no row found). -/

/-- The table `receipts` with the next value of its serial `id`. -/
structure Database where
  rows : List Receipt
  nextID : Int

/-- The query of `GetReceiptByID`: the first row with the id; `none` is `sql.ErrNoRows`. -/
def Database.GetReceiptByID (db : Database) (id : Int) : Option Receipt :=
  db.rows.find? (fun r => r.ID == id)

/-- The query of `GetReceiptByImageHash`: the first row with the hash. -/
def Database.GetReceiptByImageHash (db : Database) (hash : String) : Option Receipt :=
  db.rows.find? (fun r => r.ImageHash == hash)

/-- The query of `GetDuplicateReceipt`: the first row with the vendor, the date and an amount
with `ABS(total_amount - $2) < 0.01`. -/
def Database.GetDuplicateReceipt (db : Database) (vendor : String) (amount : ℚ) (date : Time) :
    Option Receipt :=
  db.rows.find? (fun r =>
    r.Vendor == vendor && decide (|r.TotalAmount - amount| < 1 / 100) && r.Date == date)

/-- The statement of `CreateReceipt`: the columns of the `INSERT` come from the receipt, `id`
is the next serial value, `created_at` is `NOW()`, and the columns `used_date` and `use_reason`,
which the `INSERT` does not name, are null.  The receipt with its `ID` and `CreatedAt` filled in
is returned as well. -/
def Database.CreateReceipt (db : Database) (receipt : Receipt) (now : Time) :
    Receipt × Database :=
  let row : Receipt :=
    { receipt with ID := db.nextID, CreatedAt := now, UsedDate := none, UseReason := none }
  ({ receipt with ID := db.nextID, CreatedAt := now },
    { rows := db.rows ++ [row], nextID := db.nextID + 1 })

/-- The statement of `UpdateReceipt`: the nine columns of the `SET` clause are written into
every row with the id of the receipt. -/
def Database.UpdateReceipt (db : Database) (receipt : Receipt) : Database :=
  { db with
    rows := db.rows.map (fun r =>
      if r.ID = receipt.ID then
        { r with
          Vendor := receipt.Vendor, TotalAmount := receipt.TotalAmount, Date := receipt.Date,
          HSAQualified := receipt.HSAQualified, HSAStatus := receipt.HSAStatus,
          Used := receipt.Used, UsedDate := receipt.UsedDate, UseReason := receipt.UseReason,
          ImagePath := receipt.ImagePath }
      else r) }

/-- The statement of `MarkUsed`: `used = true, used_date = NOW()` for the id of each receipt
of the list. -/
def Database.MarkUsed (db : Database) (receipts : List Receipt) (now : Time) : Database :=
  { db with
    rows := db.rows.map (fun r =>
      if r.ID ∈ receipts.map (fun x => x.ID) then { r with Used := true, UsedDate := some now }
      else r) }

/-! ## The handlers of `main.go` -/

/-- A decoded JSON value, as `encoding/json` stores it in an `interface{}`: arrays and objects
are kept as one case, no type assertion of the handlers matches them. -/
inductive JSONValue where
  | null
  | bool (b : Bool)
  | number (x : ℚ)
  | string (s : String)
  | composite
  deriving DecidableEq

/-- The type assertion `v.(string)` on the value of a key; a missing key gives `none`. -/
def asString : Option JSONValue → Option String
  | some (JSONValue.string s) => some s
  | _ => none

/-- The type assertion `v.(float64)`. -/
def asFloat64 : Option JSONValue → Option ℚ
  | some (JSONValue.number x) => some x
  | _ => none

/-- The type assertion `v.(bool)`. -/
def asBool : Option JSONValue → Option Bool
  | some (JSONValue.bool b) => some b
  | _ => none

/-- What a handler writes to the client. -/
inductive Response where
  | httpError (status : Nat) (message : String)
  | receiptJSON (receipt : Receipt)
  | duplicate (message : String) (existing : Receipt)
  | uploaded (receipt : Receipt)
  deriving DecidableEq

/-- The HTTP status of a response. -/
def Response.status : Response → Nat
  | Response.httpError status _ => status
  | Response.receiptJSON _ => 200
  | Response.duplicate _ _ => 409
  | Response.uploaded _ => 200

/-- The update of the vendor (lines 455-457). -/
def updateVendor (updates : String → Option JSONValue) (receipt : Receipt) : Receipt :=
  match asString (updates "vendor") with
  | some vendor => { receipt with Vendor := vendor }
  | none => receipt

/-- The update of the amount (lines 458-460). -/
def updateTotalAmount (updates : String → Option JSONValue) (receipt : Receipt) : Receipt :=
  match asFloat64 (updates "total_amount") with
  | some amount => { receipt with TotalAmount := amount }
  | none => receipt

/-- The update of the purchase date (lines 461-465); `parseDate` is
`time.Parse("2006-01-02", _)`, and a string that does not parse changes nothing. -/
def updateDate (parseDate : String → Option Time) (updates : String → Option JSONValue)
    (receipt : Receipt) : Receipt :=
  match asString (updates "date") with
  | some dateStr =>
    match parseDate dateStr with
    | some date => { receipt with Date := date }
    | none => receipt
  | none => receipt

/-- The update of the eligibility flag (lines 466-468). -/
def updateHSAQualified (updates : String → Option JSONValue) (receipt : Receipt) : Receipt :=
  match asBool (updates "hsa_qualified") with
  | some hsaQual => { receipt with HSAQualified := hsaQual }
  | none => receipt

/-- The update of the eligibility status, which also sets the flag (lines 469-472). -/
def updateHSAStatus (updates : String → Option JSONValue) (receipt : Receipt) : Receipt :=
  match asString (updates "hsa_status") with
  | some hsaStatus =>
    { receipt with
      HSAStatus := hsaStatus,
      HSAQualified := hsaStatus == HSAStatusYes || hsaStatus == HSAStatusPartially }
  | none => receipt

/-- The update of the used flag with its usage date (lines 473-483), on the receipt and the
variable `willBeUsed`; `now` is the reading of `time.Now()` at line 478. -/
def updateUsed (now : Time) (updates : String → Option JSONValue) (receipt : Receipt)
    (willBeUsed : Bool) : Receipt × Bool :=
  match asBool (updates "used") with
  | some used => ({ receipt with Used := used, UsedDate := if used then some now else none }, used)
  | none => (receipt, willBeUsed)

/-- The update of the usage reason (lines 484-486). -/
def updateUseReason (updates : String → Option JSONValue) (receipt : Receipt) : Receipt :=
  match asString (updates "use_reason") with
  | some useReason => { receipt with UseReason := some useReason }
  | none => receipt

/-- The field updates of `UpdateReceiptHandler` (lines 449-486) on the receipt read from the
store, in the order of the source: the updated receipt with the value of `willBeUsed`, which
starts as `receipt.Used`. -/
def applyUpdates (parseDate : String → Option Time) (now : Time)
    (updates : String → Option JSONValue) (receipt : Receipt) : Receipt × Bool :=
  let r5 := updateHSAStatus updates (updateHSAQualified updates
    (updateDate parseDate updates (updateTotalAmount updates (updateVendor updates receipt))))
  let r6 := updateUsed now updates r5 receipt.Used
  (updateUseReason updates r6.1, r6.2)

/-- The year of the file path (lines 494-501): the year of the usage date when the receipt
becomes used, the year of the purchase date when it becomes unused; `now` is the reading of
`time.Now()` at line 495. -/
def fileYear (now : Time) (willBeUsed : Bool) (receipt : Receipt) : Int :=
  match willBeUsed, receipt.UsedDate with
  | true, some usedDate => usedDate.Year
  | true, none => now.Year
  | false, _ => receipt.Date.Year

/-- The file move of `UpdateReceiptHandler` (lines 492-516) on the updated receipt: when the
used status changes and the image path is not empty the file is moved; an error of the move is
only logged and the receipt keeps its path, otherwise the receipt takes the new path. -/
def relocateOnToggle {σ H : Type} (fs : FileSystem σ H) (ReceiptDir : String) (now : Time)
    (wasUsed willBeUsed : Bool) (receipt : Receipt) (s : σ) : Receipt × σ :=
  if wasUsed ≠ willBeUsed ∧ receipt.ImagePath ≠ "" then
    let filename := Base receipt.ImagePath
    match moveReceiptFile fs receipt.ImagePath ReceiptDir (fileYear now willBeUsed receipt)
        filename willBeUsed s with
    | ((_, some _), s1) => (receipt, s1)
    | ((newPath, none), s1) => ({ receipt with ImagePath := newPath }, s1)
  else (receipt, s)

/-- The handler `UpdateReceiptHandler` (lines 435-526).  `body` is the decoded request body,
`none` when decoding fails; `now1` and `now2` are the readings of `time.Now()` at lines 478
and 495.  The result is the response, the store and the file system after the request. -/
def UpdateReceiptHandler {σ H : Type} (fs : FileSystem σ H) (parseDate : String → Option Time)
    (ReceiptDir : String) (now1 now2 : Time) (db : Database) (s : σ) (id : Int)
    (body : Option (String → Option JSONValue)) : Response × Database × σ :=
  match db.GetReceiptByID id with
  | none => (Response.httpError 404 "Receipt not found", db, s)
  | some receipt =>
    match body with
    | none => (Response.httpError 400 "Invalid request body", db, s)
    | some updates =>
      let wasUsed := receipt.Used
      let updated := applyUpdates parseDate now1 updates receipt
      let moved := relocateOnToggle fs ReceiptDir now2 wasUsed updated.2 updated.1 s
      (Response.receiptJSON moved.1, db.UpdateReceipt moved.1, moved.2)

/-- The answer of the OCR service, the Go `OCRResponse` struct. -/
structure OCRResponse where
  Vendor : String
  Amount : ℚ
  Date : String
  HSAQualified : Bool
  HSAStatus : String
  RawText : String

/-- The request of an upload as `UploadHandler` reads it: the method, whether
`ParseMultipartForm` succeeds, the file of the form (its `header.Filename` and its bytes) when
`FormFile` finds one, and whether `io.ReadAll` succeeds. -/
structure UploadRequest where
  Method : String
  formOK : Bool
  file : Option (String × List Nat)
  readOK : Bool

/-- The environment of `UploadHandler`: the digest `hex(sha256(_))`, the call of the OCR service
on a saved file, `time.Parse("01/02/2006", _)`, the two server settings, and the readings of
`time.Now()` at lines 227, 230 and 271/274 and of `NOW()` in the `INSERT`. -/
structure UploadEnv (σ : Type) where
  sha256hex : List Nat → String
  callOCRService : String → String → σ → Except String OCRResponse × σ
  parseDate : String → Option Time
  ReceiptDir : String
  OCRServiceURL : String
  nowName : Time
  nowYear : Time
  nowDate : Time
  nowInsert : Time

/-- The receipt that `UploadHandler` builds (lines 266-285 and 301-312) from the answer of the
OCR service. -/
def buildReceipt {σ : Type} (env : UploadEnv σ) (ocrResult : OCRResponse) (savePath : String)
    (imageHash : String) : Receipt :=
  let receiptDate : Time :=
    if ocrResult.Date ≠ "" then
      match env.parseDate ocrResult.Date with
      | some d => d
      | none => env.nowDate
    else env.nowDate
  let hsaStatus : String :=
    if ocrResult.HSAStatus = "" then
      (if ocrResult.HSAQualified then HSAStatusYes else HSAStatusNo)
    else ocrResult.HSAStatus
  { ID := 0
    UserID := HOUSEHOLD_USER
    Vendor := ocrResult.Vendor
    TotalAmount := ocrResult.Amount
    Date := receiptDate
    HSAQualified := hsaStatus == HSAStatusYes || hsaStatus == HSAStatusPartially
    HSAStatus := hsaStatus
    ImagePath := savePath
    ImageHash := imageHash
    RawText := ocrResult.RawText
    Used := false
    UsedDate := none
    UseReason := none
    CreatedAt := ⟨0, 0, 0, 0⟩ }

/-- The handler `UploadHandler` (lines 188-334): the response, the store and the file system
after the request.  The deferred `outFile.Close()` runs when the handler returns. -/
def UploadHandler {σ H : Type} (fs : FileSystem σ H) (env : UploadEnv σ) (db : Database)
    (s : σ) (req : UploadRequest) : Response × Database × σ :=
  if req.Method ≠ "POST" then (Response.httpError 405 "Method not allowed", db, s)
  else if req.formOK = false then (Response.httpError 400 "Failed to parse form", db, s)
  else
    match req.file with
    | none => (Response.httpError 400 "Failed to get file from request", db, s)
    | some (headerFilename, fileData) =>
      if req.readOK = false then (Response.httpError 500 "Failed to read file", db, s)
      else
        let imageHash := env.sha256hex fileData
        match db.GetReceiptByImageHash imageHash with
        | some existingReceipt =>
          (Response.duplicate "This receipt has already been uploaded" existingReceipt, db, s)
        | none =>
          let filename := Sprintf_d env.nowName.Unix ++ "_" ++ headerFilename
          let receiptYear := env.nowYear.Year
          let savePath := getReceiptFilePath env.ReceiptDir receiptYear filename false
          match ensureDirectoryExists fs savePath s with
          | (some _, s1) => (Response.httpError 500 "Failed to create directory", db, s1)
          | (none, s1) =>
            match fs.Create savePath s1 with
            | (Except.error _, s2) => (Response.httpError 500 "Failed to save file", db, s2)
            | (Except.ok outFile, s2) =>
              match fs.Write outFile fileData s2 with
              | (some _, s3) =>
                (Response.httpError 500 "Failed to save file", db, fs.Close outFile s3)
              | (none, s3) =>
                match env.callOCRService savePath env.OCRServiceURL s3 with
                | (Except.error err, s4) =>
                  (Response.httpError 500 ("OCR processing failed: " ++ err), db,
                    fs.Close outFile s4)
                | (Except.ok ocrResult, s4) =>
                  let receipt := buildReceipt env ocrResult savePath imageHash
                  match db.GetDuplicateReceipt ocrResult.Vendor ocrResult.Amount
                      receipt.Date with
                  | some existingReceipt =>
                    (Response.duplicate
                      "A similar receipt already exists (same vendor, amount, and date)"
                      existingReceipt, db, fs.Close outFile s4)
                  | none =>
                    let created := db.CreateReceipt receipt env.nowInsert
                    (Response.uploaded created.1, created.2, fs.Close outFile s4)

/-- The usage-date invariant of a receipt: a used receipt has a usage date and an unused one
has none. -/
def usageDateInvariant (r : Receipt) : Prop :=
  (r.Used = true → r.UsedDate ≠ none) ∧ (r.Used = false → r.UsedDate = none)

instance (r : Receipt) : Decidable (usageDateInvariant r) := by
  unfold usageDateInvariant
  infer_instance

/-- The eligibility invariant of a receipt, in the words of the data model: `hsa_qualified`
is true if and only if `hsa_status` is `Yes` or `Partially`. -/
def eligibilityInvariant (r : Receipt) : Prop :=
  r.HSAQualified = true ↔ (r.HSAStatus = HSAStatusYes ∨ r.HSAStatus = HSAStatusPartially)

instance (r : Receipt) : Decidable (eligibilityInvariant r) := by
  unfold eligibilityInvariant
  infer_instance

/-- The year of the archival path of a receipt, in the words of the data model: the usage-date
year when the receipt is used, the purchase-date year when it is unused (and for a used
receipt without usage date, which the data model excludes). -/
def archivalYear (r : Receipt) : Int :=
  match r.Used, r.UsedDate with
  | true, some usedDate => usedDate.Year
  | _, _ => r.Date.Year

/-- The archival-path consistency of a receipt, in the words of the data model: `image_path`
is the canonical path of the root, the usage flag, the archival year and the base name of the
stored image. -/
def archivalPathConsistent (root : String) (r : Receipt) : Prop :=
  r.ImagePath = getReceiptFilePath root (archivalYear r) (Base r.ImagePath) r.Used

instance (root : String) (r : Receipt) : Decidable (archivalPathConsistent root r) := by
  unfold archivalPathConsistent
  infer_instance

/-- The path under which `UploadHandler` saves the uploaded file (lines 227-231). -/
def uploadSavePath {σ : Type} (env : UploadEnv σ) (headerFilename : String) : String :=
  getReceiptFilePath env.ReceiptDir env.nowYear.Year
    (Sprintf_d env.nowName.Unix ++ "_" ++ headerFilename) false

/-! ## Example data -/

/-- An unused receipt of 2023 in the store. -/
def exampleReceipt : Receipt :=
  { ID := 1
    UserID := HOUSEHOLD_USER
    Vendor := "Pharmacy"
    TotalAmount := 30
    Date := ⟨1699920000, 2023, 11, 14⟩
    HSAQualified := true
    HSAStatus := HSAStatusYes
    ImagePath := "/data/hsa/unused/2023/1700000000_receipt.jpg"
    ImageHash := "9f2c"
    RawText := ""
    Used := false
    UsedDate := none
    UseReason := none
    CreatedAt := ⟨1700000000, 2023, 11, 14⟩ }

/-- A store that holds the example receipt only. -/
def exampleDB : Database := ⟨[exampleReceipt], 2⟩

/-- The request body `{"used": true}`. -/
def bodyUsed : String → Option JSONValue :=
  fun key => if key = "used" then some (JSONValue.bool true) else none

/-- The request body `{"used": false}`. -/
def bodyUnused : String → Option JSONValue :=
  fun key => if key = "used" then some (JSONValue.bool false) else none

/-- The example file system in which directories cannot be created. -/
def mkdirFails : Faults := ⟨true, false, false, false, false, false, false⟩

/-- A reading of the clock in 2024. -/
def clock2024 : Time := ⟨1717200000, 2024, 6, 1⟩

/-- A reading of the clock in 2025. -/
def clock2025 : Time := ⟨1740000000, 2025, 2, 19⟩

/-- The request body `{"hsa_qualified": false}`. -/
def bodyNotQualified : String → Option JSONValue :=
  fun key => if key = "hsa_qualified" then some (JSONValue.bool false) else none

/-- The request body `{"date": "2021-03-05"}`. -/
def bodyDate2021 : String → Option JSONValue :=
  fun key => if key = "date" then some (JSONValue.string "2021-03-05") else none

/-- A date reader for the example requests: it knows three dates. -/
def exampleParseDate : String → Option Time :=
  fun d =>
    if d = "2021-03-05" then some ⟨1614902400, 2021, 3, 5⟩
    else if d = "11/14/2023" then some ⟨1699920000, 2023, 11, 14⟩
    else if d = "01/15/2022" then some ⟨1642204800, 2022, 1, 15⟩
    else none

/-- An answer of the OCR service for the purchase of the example receipt, read from another
photo: the amount differs by half a cent. -/
def exampleOCR : OCRResponse :=
  { Vendor := "Pharmacy", Amount := 6001 / 200, Date := "11/14/2023", HSAQualified := true,
    HSAStatus := "", RawText := "" }

/-- An answer of the OCR service for a purchase of January 2022. -/
def oldPurchaseOCR : OCRResponse :=
  { Vendor := "Clinic", Amount := 80, Date := "01/15/2022", HSAQualified := true,
    HSAStatus := HSAStatusYes, RawText := "" }

/-- An example environment of `UploadHandler` in 2024, over the example file system: the bytes
`[1, 2, 3]` have the digest of the example receipt, and the OCR service gives `ocr`. -/
def exampleEnv (ocr : OCRResponse) : UploadEnv (List String) :=
  { sha256hex := fun data => if data = [1, 2, 3] then "9f2c" else "77aa"
    callOCRService := fun path _ s => (Except.ok ocr, s ++ ["ocr " ++ path])
    parseDate := exampleParseDate
    ReceiptDir := "/data/hsa"
    OCRServiceURL := "http://localhost:8001"
    nowName := clock2024
    nowYear := clock2024
    nowDate := clock2024
    nowInsert := clock2024 }

/-- An upload of the file `receipt.jpg` with the given bytes. -/
def exampleUpload (fileData : List Nat) : UploadRequest :=
  { Method := "POST", formOK := true, file := some ("receipt.jpg", fileData), readOK := true }

/-- The example receipt after it was marked used in 2024: its file is in the used area of
2024. -/
def usedReceipt : Receipt :=
  { exampleReceipt with
    Used := true
    UsedDate := some clock2024
    ImagePath := "/data/hsa/used/2024/1700000000_receipt.jpg" }

/-- A store that holds the used example receipt only. -/
def usedDB : Database := ⟨[usedReceipt], 2⟩

/-! ## Properties of the selection engine -/

theorem innerLoop_eq (target a : ℚ) (i : Nat) (dp : List state) (best : state)
    (newdp : List state) :
    innerLoop target a i dp (best, newdp)
      = ((dp.map (ext a i)).foldl (upd target) best, newdp ++ dp.map (ext a i)) := by
  induction dp generalizing best newdp with
  | nil => simp [innerLoop]
  | cons s rest ih =>
    simp only [innerLoop, ih, List.map_cons, List.foldl_cons, List.append_assoc,
      List.singleton_append, upd, ext]

theorem sumAt_append (amounts : List ℚ) (S T : List Nat) :
    sumAt amounts (S ++ T) = sumAt amounts S + sumAt amounts T := by
  simp [sumAt]

theorem ext_stateOf (amounts : List ℚ) (k : Nat) (S : List Nat) :
    ext (amounts.getD k 0) k (stateOf amounts S) = stateOf amounts (S ++ [k]) := by
  simp [ext, stateOf, sumAt]

theorem allStates_succ (amounts : List ℚ) (k : Nat) :
    allStates amounts (k + 1)
      = allStates amounts k ++ (allStates amounts k).map (ext (amounts.getD k 0) k) := by
  simp only [allStates, List.range_succ, List.sublists_concat, List.map_append, List.map_map]
  congr 1
  apply List.map_congr_left
  intro S _
  exact (ext_stateOf amounts k S).symm

theorem outerLoop_eq (target : ℚ) (amounts : List ℚ) :
    ∀ (rest : List ℚ) (k : Nat), amounts.drop k = rest → k + rest.length = amounts.length →
      ∃ V : List state, allStates amounts k ++ V = allStates amounts amounts.length ∧
        ∀ best, outerLoop target rest k (best, allStates amounts k)
          = (V.foldl (upd target) best, allStates amounts amounts.length) := by
  intro rest
  induction rest with
  | nil =>
    intro k _ hlen
    have hk : k = amounts.length := by simpa using hlen
    subst hk
    exact ⟨[], by simp, fun best => by simp [outerLoop]⟩
  | cons a rest ih =>
    intro k hk hlen
    have hlt : k < amounts.length := by
      simp only [List.length_cons] at hlen
      omega
    have ha : amounts.getD k 0 = a := by
      have h1 : (amounts.drop k)[0]? = some a := by rw [hk]; simp
      rw [List.getElem?_drop] at h1
      simp only [Nat.add_zero] at h1
      simp [List.getD, h1]
    have hrest : amounts.drop (k + 1) = rest := by
      have h2 : (amounts.drop k).drop 1 = rest := by rw [hk]; rfl
      rw [List.drop_drop] at h2
      rw [← h2, Nat.add_comm]
    have hlen2 : k + 1 + rest.length = amounts.length := by
      simp only [List.length_cons] at hlen
      omega
    obtain ⟨V, hV, hrun⟩ := ih (k + 1) hrest hlen2
    refine ⟨(allStates amounts k).map (ext a k) ++ V, ?_, ?_⟩
    · rw [← hV, allStates_succ, ha, List.append_assoc]
    · intro best
      rw [outerLoop, innerLoop_eq, ← ha, ← allStates_succ, hrun, List.foldl_append]

theorem foldl_upd_cases (target : ℚ) (V : List state) :
    ∀ b : state,
      (V.foldl (upd target) b = b ∧ ∀ c ∈ V, c.sum ≤ target → c.sum ≤ b.sum) ∨
      (∃ L1 c L2, V = L1 ++ c :: L2 ∧ V.foldl (upd target) b = c ∧ c.sum ≤ target ∧
        b.sum < c.sum ∧ (∀ t ∈ L1, t.sum ≤ target → t.sum < c.sum) ∧
        (∀ t ∈ L2, t.sum ≤ target → t.sum ≤ c.sum)) := by
  induction V with
  | nil => intro b; left; simp
  | cons c V ih =>
    intro b
    by_cases hc : c.sum ≤ target ∧ (target - c.sum) < (target - b.sum)
    · have hu : upd target b c = c := by unfold upd; rw [if_pos hc]
      have hbc : b.sum < c.sum := by linarith [hc.2]
      rcases ih c with ⟨h1, h2⟩ | ⟨L1, c1, L2, hV, hf, hle, hlt, hL1, hL2⟩
      · right
        exact ⟨[], c, V, rfl, by simp [List.foldl_cons, hu, h1], hc.1, hbc,
          by simp, h2⟩
      · right
        refine ⟨c :: L1, c1, L2, by simp [hV], by simp [List.foldl_cons, hu, hf], hle,
          by linarith, ?_, hL2⟩
        intro t ht htle
        rcases List.mem_cons.1 ht with rfl | ht
        · exact hlt
        · exact hL1 t ht htle
    · have hu : upd target b c = b := by unfold upd; rw [if_neg hc]
      have hcb : c.sum ≤ target → c.sum ≤ b.sum := by
        intro h
        by_contra hn
        exact hc ⟨h, by linarith [not_le.1 hn]⟩
      rcases ih b with ⟨h1, h2⟩ | ⟨L1, c1, L2, hV, hf, hle, hlt, hL1, hL2⟩
      · left
        refine ⟨by simp [List.foldl_cons, hu, h1], ?_⟩
        intro t ht htle
        rcases List.mem_cons.1 ht with rfl | ht
        · exact hcb htle
        · exact h2 t ht htle
      · right
        refine ⟨c :: L1, c1, L2, by simp [hV], by simp [List.foldl_cons, hu, hf], hle,
          hlt, ?_, hL2⟩
        intro t ht htle
        rcases List.mem_cons.1 ht with rfl | ht
        · exact lt_of_le_of_lt (hcb htle) hlt
        · exact hL1 t ht htle

theorem allStates_zero (amounts : List ℚ) : allStates amounts 0 = [⟨0, []⟩] := by
  simp [allStates, stateOf, sumAt]

/-- The run of `SubsetSum`: the final collection is the initial state followed by the visited
states `V`, it holds a state for each sublist of the positions, and `best` is the fold of the
update over `V`. -/
theorem SubsetSumRun_eq (amounts : List ℚ) (target : ℚ) :
    ∃ V : List state, (⟨0, []⟩ : state) :: V = allStates amounts amounts.length ∧
      SubsetSumRun amounts target
        = (V.foldl (upd target) ⟨0, []⟩, allStates amounts amounts.length) := by
  obtain ⟨V, hV, hrun⟩ := outerLoop_eq target amounts amounts 0 (by simp) (by simp)
  refine ⟨V, ?_, ?_⟩
  · rw [← hV, allStates_zero]; rfl
  · have := hrun ⟨0, []⟩
    rw [allStates_zero] at this
    exact this

theorem mem_allStates (amounts : List ℚ) (k : Nat) (c : state) :
    c ∈ allStates amounts k ↔ ∃ S : List Nat, S.Sublist (List.range k) ∧ c = stateOf amounts S := by
  simp only [allStates, List.mem_map, List.mem_sublists]
  constructor
  · rintro ⟨S, hS, rfl⟩; exact ⟨S, hS, rfl⟩
  · rintro ⟨S, hS, rfl⟩; exact ⟨S, hS, rfl⟩

/-- The final `best` of `SubsetSum`: either the initial state, no visited state within the
target having a positive sum, or a visited state `c` within the target, of positive sum,
strictly above every earlier visited state within the target and at least every later one. -/
theorem best_cases (amounts : List ℚ) (target : ℚ) :
    ∃ V : List state, (⟨0, []⟩ : state) :: V = allStates amounts amounts.length ∧
      SubsetSumDp amounts target = (⟨0, []⟩ : state) :: V ∧
      (((SubsetSumRun amounts target).1 = ⟨0, []⟩ ∧ ∀ c ∈ V, c.sum ≤ target → c.sum ≤ 0) ∨
       (∃ L1 c L2, V = L1 ++ c :: L2 ∧ (SubsetSumRun amounts target).1 = c ∧ c.sum ≤ target ∧
          0 < c.sum ∧ (∀ t ∈ L1, t.sum ≤ target → t.sum < c.sum) ∧
          (∀ t ∈ L2, t.sum ≤ target → t.sum ≤ c.sum))) := by
  obtain ⟨V, hV, hrun⟩ := SubsetSumRun_eq amounts target
  refine ⟨V, hV, by rw [SubsetSumDp, hrun, hV], ?_⟩
  rw [hrun]
  exact foldl_upd_cases target V ⟨0, []⟩

/-- The final `best` is the state of a sublist of the positions. -/
theorem best_mem (amounts : List ℚ) (target : ℚ) :
    ∃ S : List Nat, S.Sublist (List.range amounts.length) ∧
      (SubsetSumRun amounts target).1 = stateOf amounts S := by
  obtain ⟨V, hV, _, h⟩ := best_cases amounts target
  apply (mem_allStates amounts amounts.length _).1
  rw [← hV]
  rcases h with ⟨h, _⟩ | ⟨L1, c, L2, hVe, h, _⟩
  · rw [h]; exact List.mem_cons_self _ _
  · rw [h, hVe]; simp

theorem SubsetSum_sublist (amounts : List ℚ) (target : ℚ) :
    (SubsetSum amounts target).Sublist (List.range amounts.length) := by
  obtain ⟨S, hS, h⟩ := best_mem amounts target
  rw [SubsetSum, h]
  exact hS

theorem best_sum (amounts : List ℚ) (target : ℚ) :
    (SubsetSumRun amounts target).1.sum = sumAt amounts (SubsetSum amounts target) := by
  obtain ⟨S, _, h⟩ := best_mem amounts target
  rw [SubsetSum, h]
  rfl

/-- Every state of the collection that is within the target has a sum at most the sum of the
final `best`, and that sum is not negative. -/
theorem best_max (amounts : List ℚ) (target : ℚ) :
    0 ≤ (SubsetSumRun amounts target).1.sum ∧
    ∀ c ∈ allStates amounts amounts.length, c.sum ≤ target →
      c.sum ≤ (SubsetSumRun amounts target).1.sum := by
  obtain ⟨V, hV, _, h⟩ := best_cases amounts target
  rw [← hV]
  rcases h with ⟨h, hall⟩ | ⟨L1, c, L2, hVe, h, hle, hpos, hL1, hL2⟩
  · rw [h]
    refine ⟨le_refl _, ?_⟩
    intro c hc hct
    rcases List.mem_cons.1 hc with rfl | hc
    · exact le_refl _
    · exact hall c hc hct
  · rw [h]
    refine ⟨le_of_lt hpos, ?_⟩
    intro t ht htt
    rcases List.mem_cons.1 ht with rfl | ht
    · exact le_of_lt hpos
    · rw [hVe] at ht
      rcases List.mem_append.1 ht with ht | ht
      · exact le_of_lt (hL1 t ht htt)
      · rcases List.mem_cons.1 ht with rfl | ht
        · exact le_refl _
        · exact hL2 t ht htt

/-- The sum over a finite set of positions is the sum at a sublist of the positions. -/
theorem finset_sum_eq_sumAt (amounts : List ℚ) (F : Finset Nat)
    (hF : F ⊆ Finset.range amounts.length) :
    ∃ S : List Nat, S.Sublist (List.range amounts.length) ∧
      sumAt amounts S = ∑ i in F, amounts.getD i 0 := by
  refine ⟨F.sort (· ≤ ·), ?_, ?_⟩
  · apply List.sublist_of_subperm_of_sorted _ (Finset.sort_sorted _ F)
      ((List.sorted_lt_range amounts.length).le_of_lt)
    apply List.Nodup.subperm (Finset.sort_nodup _ F)
    intro i hi
    exact List.mem_range.2 (Finset.mem_range.1 (hF ((Finset.mem_sort _).1 hi)))
  · unfold sumAt
    rw [← Finset.sum_to_list]
    exact ((Finset.sort_perm_toList (· ≤ ·) F).map _).sum_eq

/-- C1 (SubsetSum optimality): for every amounts list and every target `≥ 0`, the amounts at
the returned indices sum to at most the target, and every subset of the input positions (a
sublist of `0..n-1`, or a finite set of positions below `n`) whose sum is at most the target
has a sum at most the returned sum.  Positivity of the amounts is not needed. -/
theorem SubsetSum_optimal (amounts : List ℚ) (target : ℚ) (ht : 0 ≤ target) :
    sumAt amounts (SubsetSum amounts target) ≤ target ∧
    (∀ S : List Nat, S.Sublist (List.range amounts.length) → sumAt amounts S ≤ target →
      sumAt amounts S ≤ sumAt amounts (SubsetSum amounts target)) ∧
    (∀ F : Finset Nat, F ⊆ Finset.range amounts.length →
      (∑ i in F, amounts.getD i 0) ≤ target →
      (∑ i in F, amounts.getD i 0) ≤ sumAt amounts (SubsetSum amounts target)) := by
  have hlist : ∀ S : List Nat, S.Sublist (List.range amounts.length) →
      sumAt amounts S ≤ target →
      sumAt amounts S ≤ sumAt amounts (SubsetSum amounts target) := by
    intro S hS hle
    rw [← best_sum]
    exact (best_max amounts target).2 (stateOf amounts S)
      ((mem_allStates amounts _ _).2 ⟨S, hS, rfl⟩) hle
  refine ⟨?_, hlist, ?_⟩
  · obtain ⟨V, _, _, h⟩ := best_cases amounts target
    rw [← best_sum]
    rcases h with ⟨h, _⟩ | ⟨L1, c, L2, _, h, hle, _⟩
    · rw [h]; exact ht
    · rw [h]; exact hle
  · intro F hF hle
    obtain ⟨S, hS, hsum⟩ := finset_sum_eq_sumAt amounts F hF
    rw [← hsum] at hle ⊢
    exact hlist S hS hle

/-- C1, at the amounts `[12.50, 7.25, 30.00]` and the target `20.00`: the indices are
`[0, 1]`, of sum `19.75`, within the target. -/
theorem SubsetSum_optimal_witness :
    SubsetSum [25 / 2, 29 / 4, 30] 20 = [0, 1] ∧
    sumAt [25 / 2, 29 / 4, 30] (SubsetSum [25 / 2, 29 / 4, 30] 20) = 79 / 4 ∧
    sumAt [25 / 2, 29 / 4, 30] (SubsetSum [25 / 2, 29 / 4, 30] 20) ≤ 20 ∧
    (∀ S : List Nat, S.Sublist (List.range ([25 / 2, 29 / 4, 30] : List ℚ).length) →
      sumAt [25 / 2, 29 / 4, 30] S ≤ 20 →
      sumAt [25 / 2, 29 / 4, 30] S ≤ sumAt [25 / 2, 29 / 4, 30]
        (SubsetSum [25 / 2, 29 / 4, 30] 20)) := by
  have h : SubsetSum [25 / 2, 29 / 4, 30] 20 = [0, 1] := by
    simp [SubsetSum, SubsetSumRun, outerLoop, innerLoop]
    norm_num
  refine ⟨h, ?_, (SubsetSum_optimal [25 / 2, 29 / 4, 30] 20 (by norm_num)).1,
    (SubsetSum_optimal [25 / 2, 29 / 4, 30] 20 (by norm_num)).2.1⟩
  rw [h]
  norm_num [sumAt]

theorem code_append (S T : List Nat) : code (S ++ T) = code S + code T := by
  simp [code]

/-- The sublist found at position `j` of `sublists (range n)` has binary code `j`. -/
theorem code_of_getElem_sublists (n : Nat) :
    ∀ (j : Nat) (S : List Nat), (List.range n).sublists[j]? = some S → code S = j := by
  induction n with
  | zero =>
    intro j S h
    cases j with
    | zero => simp at h; subst h; rfl
    | succ j => simp at h
  | succ n ih =>
    intro j S h
    rw [List.range_succ, List.sublists_concat] at h
    by_cases hj : j < (List.range n).sublists.length
    · rw [List.getElem?_append_left hj] at h
      exact ih j S h
    · have hj2 : (List.range n).sublists.length ≤ j := Nat.le_of_not_lt hj
      rw [List.getElem?_append_right hj2, List.getElem?_map] at h
      cases h2 : (List.range n).sublists[j - (List.range n).sublists.length]? with
      | none => rw [h2] at h; simp at h
      | some S1 =>
        rw [h2] at h
        simp only [Option.map_some', Option.some.injEq] at h
        subst h
        have := ih _ S1 h2
        rw [code_append, this]
        simp only [code, List.map_cons, List.map_nil, List.sum_cons, List.sum_nil, Nat.add_zero]
        rw [List.length_sublists, List.length_range] at hj2 ⊢
        omega

/-- Every state of the collection sits at the position given by the binary code of its index
list. -/
theorem allStates_getElem (amounts : List ℚ) (n j : Nat) (s : state)
    (h : (allStates amounts n)[j]? = some s) :
    code s.indices = j ∧ s = stateOf amounts s.indices ∧
      s.indices.Sublist (List.range n) := by
  rw [allStates, List.getElem?_map] at h
  cases h2 : (List.range n).sublists[j]? with
  | none => rw [h2] at h; simp at h
  | some S =>
    rw [h2] at h
    simp only [Option.map_some', Option.some.injEq] at h
    subst h
    exact ⟨code_of_getElem_sublists n j S h2, rfl,
      List.mem_sublists.1 (List.getElem?_mem h2)⟩

theorem allStates_at_code (amounts : List ℚ) (n : Nat) (S : List Nat)
    (hS : S.Sublist (List.range n)) :
    (allStates amounts n)[code S]? = some (stateOf amounts S) := by
  have hmem : stateOf amounts S ∈ allStates amounts n :=
    (mem_allStates amounts n _).2 ⟨S, hS, rfl⟩
  obtain ⟨j, hj⟩ := List.getElem?_of_mem hmem
  have := (allStates_getElem amounts n j _ hj).1
  simp only [stateOf] at this
  rw [this]
  exact hj

theorem sumAt_cons (amounts : List ℚ) (i : Nat) (S : List Nat) :
    sumAt amounts (i :: S) = amounts.getD i 0 + sumAt amounts S := by
  simp [sumAt]

theorem getD_pos (amounts : List ℚ) (hpos : ∀ a ∈ amounts, 0 < a) (i : Nat)
    (hi : i < amounts.length) : 0 < amounts.getD i 0 := by
  have : amounts.getD i 0 = amounts[i] := by
    simp [List.getD, List.getElem?_eq_getElem hi]
  rw [this]
  exact hpos _ (List.getElem_mem hi)

theorem getD_nonneg (amounts : List ℚ) (hpos : ∀ a ∈ amounts, 0 ≤ a) (i : Nat) :
    0 ≤ amounts.getD i 0 := by
  by_cases hi : i < amounts.length
  · have : amounts.getD i 0 = amounts[i] := by
      simp [List.getD, List.getElem?_eq_getElem hi]
    rw [this]
    exact hpos _ (List.getElem_mem hi)
  · have : amounts.getD i 0 = 0 := by
      simp [List.getD, List.getElem?_eq_none (Nat.le_of_not_lt hi)]
    rw [this]

theorem sumAt_nonneg (amounts : List ℚ) (hpos : ∀ a ∈ amounts, 0 ≤ a) (S : List Nat) :
    0 ≤ sumAt amounts S := by
  induction S with
  | nil => simp [sumAt]
  | cons i S ih =>
    rw [sumAt_cons]
    exact add_nonneg (getD_nonneg amounts hpos i) ih

/-- With positive amounts a non-empty list of valid positions has a positive sum. -/
theorem sumAt_pos (amounts : List ℚ) (hpos : ∀ a ∈ amounts, 0 < a) (S : List Nat)
    (hne : S ≠ []) (hS : ∀ i ∈ S, i < amounts.length) : 0 < sumAt amounts S := by
  cases S with
  | nil => exact absurd rfl hne
  | cons i S =>
    rw [sumAt_cons]
    exact add_pos_of_pos_of_nonneg
      (getD_pos amounts hpos i (hS i (List.mem_cons_self _ _)))
      (sumAt_nonneg amounts (fun a ha => le_of_lt (hpos a ha)) S)

theorem lt_of_mem_sublist_range (n : Nat) (S : List Nat) (hS : S.Sublist (List.range n)) :
    ∀ i ∈ S, i < n :=
  fun _ hi => List.mem_range.1 (hS.subset hi)

/-- When `best` was replaced at least once, the returned state sits at a position `k ≥ 1` of
the collection and no state at an earlier position has the same sum. -/
theorem best_first (amounts : List ℚ) (target : ℚ)
    (hne : (SubsetSumRun amounts target).1 ≠ ⟨0, []⟩ ∨
      ∃ c ∈ allStates amounts amounts.length, c.sum ≤ target ∧ 0 < c.sum) :
    ∃ k : Nat, 0 < k ∧
      (SubsetSumDp amounts target)[k]? = some (SubsetSumRun amounts target).1 ∧
      ∀ (j : Nat) (t : state), j < k → (SubsetSumDp amounts target)[j]? = some t →
        t.sum ≠ (SubsetSumRun amounts target).1.sum := by
  obtain ⟨V, hV, hdp, h⟩ := best_cases amounts target
  rcases h with ⟨h, hall⟩ | ⟨L1, c, L2, hVe, h, hle, hpos, hL1, _⟩
  · exfalso
    rcases hne with hne | ⟨c, hc, hct, hc0⟩
    · exact hne h
    · rw [← hV] at hc
      rcases List.mem_cons.1 hc with rfl | hc
      · exact lt_irrefl _ hc0
      · exact absurd (hall c hc hct) (not_le.2 hc0)
  · refine ⟨L1.length + 1, Nat.succ_pos _, ?_, ?_⟩
    · rw [hdp, hVe, h, List.getElem?_cons_succ,
        List.getElem?_append_right (Nat.le_refl _), Nat.sub_self, List.getElem?_cons_zero]
    · intro j t hj ht
      rw [hdp, hVe] at ht
      rw [h]
      cases j with
      | zero =>
        simp only [List.getElem?_cons_zero, Option.some.injEq] at ht
        subst ht
        exact ne_of_lt hpos
      | succ j =>
        simp only [List.getElem?_cons_succ] at ht
        have hj2 : j < L1.length := by omega
        rw [List.getElem?_append_left hj2] at ht
        have hmem : t ∈ L1 := List.getElem?_mem ht
        by_cases htt : t.sum ≤ target
        · exact ne_of_lt (hL1 t hmem htt)
        · exact ne_of_gt (lt_of_le_of_lt hle (not_le.1 htt))

/-- C2 (SubsetSum tie-break): for positive amounts, when some non-empty subset has a sum at
most the target, (1) the state at position `j` of the engine's collection (the initial state
followed by the visited states in the order of their visits) is the subset of binary code
`j`, a state comes before another exactly when its code is smaller, and each subset of the
positions sits at the position of its code; (2) the returned index list is a
visited subset and no subset at an earlier position has the same sum; (3) hence the returned
list has the least code among the subsets having the returned sum. -/
theorem SubsetSum_tie_break (amounts : List ℚ) (target : ℚ)
    (hpos : ∀ a ∈ amounts, 0 < a)
    (hex : ∃ S : List Nat, S ≠ [] ∧ S.Sublist (List.range amounts.length) ∧
      sumAt amounts S ≤ target) :
    (∀ (j : Nat) (s : state), (SubsetSumDp amounts target)[j]? = some s →
      code s.indices = j ∧ s.sum = sumAt amounts s.indices ∧
        s.indices.Sublist (List.range amounts.length)) ∧
    (∀ (j k : Nat) (s t : state), (SubsetSumDp amounts target)[j]? = some s →
      (SubsetSumDp amounts target)[k]? = some t →
      (j < k ↔ code s.indices < code t.indices)) ∧
    (∀ S : List Nat, S.Sublist (List.range amounts.length) →
      (SubsetSumDp amounts target)[code S]? = some ⟨sumAt amounts S, S⟩) ∧
    (∃ k : Nat, 0 < k ∧ k = code (SubsetSum amounts target) ∧
      (SubsetSumDp amounts target)[k]?
        = some ⟨sumAt amounts (SubsetSum amounts target), SubsetSum amounts target⟩ ∧
      ∀ (j : Nat) (t : state), j < k → (SubsetSumDp amounts target)[j]? = some t →
        t.sum ≠ sumAt amounts (SubsetSum amounts target)) ∧
    (∀ T : List Nat, T.Sublist (List.range amounts.length) →
      sumAt amounts T = sumAt amounts (SubsetSum amounts target) →
      code (SubsetSum amounts target) ≤ code T) := by
  have hdp : SubsetSumDp amounts target = allStates amounts amounts.length := by
    obtain ⟨V, hV, hdp, _⟩ := best_cases amounts target
    rw [hdp, hV]
  have h1 : ∀ (j : Nat) (s : state), (SubsetSumDp amounts target)[j]? = some s →
      code s.indices = j ∧ s.sum = sumAt amounts s.indices ∧
        s.indices.Sublist (List.range amounts.length) := by
    intro j s hs
    rw [hdp] at hs
    obtain ⟨a, b, c⟩ := allStates_getElem amounts _ j s hs
    exact ⟨a, by rw [b]; rfl, c⟩
  have h2 : ∀ S : List Nat, S.Sublist (List.range amounts.length) →
      (SubsetSumDp amounts target)[code S]? = some ⟨sumAt amounts S, S⟩ := by
    intro S hS
    rw [hdp]
    exact allStates_at_code amounts _ S hS
  obtain ⟨S, hSne, hS, hSt⟩ := hex
  obtain ⟨k, hk0, hk, hfirst⟩ := best_first amounts target
    (Or.inr ⟨stateOf amounts S, (mem_allStates amounts _ _).2 ⟨S, hS, rfl⟩, hSt,
      sumAt_pos amounts hpos S hSne (lt_of_mem_sublist_range _ S hS)⟩)
  have hbest : (SubsetSumRun amounts target).1
      = ⟨sumAt amounts (SubsetSum amounts target), SubsetSum amounts target⟩ := by
    obtain ⟨S1, _, h⟩ := best_mem amounts target
    rw [SubsetSum, h]
    rfl
  have hkc : k = code (SubsetSum amounts target) := ((h1 k _ hk).1).symm
  have h3 : ∀ (j : Nat) (t : state), j < k → (SubsetSumDp amounts target)[j]? = some t →
      t.sum ≠ sumAt amounts (SubsetSum amounts target) := by
    intro j t hj ht
    rw [← best_sum]
    exact hfirst j t hj ht
  refine ⟨h1, ?_, h2, ⟨k, hk0, hkc, by rw [hk, hbest], h3⟩, ?_⟩
  · intro j k s t hs ht
    rw [(h1 j s hs).1, (h1 k t ht).1]
  intro T hT hsum
  by_contra hlt
  have hlt2 : code T < k := by rw [hkc]; exact not_le.1 hlt
  exact h3 (code T) _ hlt2 (h2 T hT) hsum

/-- C2, at the amounts `[1, 2, 3]` and the target `3`: the subsets `{0, 1}` (code 3) and
`{2}` (code 4) both sum to 3, and the one of smaller code is returned. -/
theorem SubsetSum_tie_break_witness :
    SubsetSum [1, 2, 3] 3 = [0, 1] ∧ code [0, 1] = 3 ∧ code [2] = 4 ∧
    sumAt [1, 2, 3] [2] = sumAt [1, 2, 3] [0, 1] ∧
    (∀ T : List Nat, T.Sublist (List.range ([1, 2, 3] : List ℚ).length) →
      sumAt [1, 2, 3] T = sumAt [1, 2, 3] (SubsetSum [1, 2, 3] 3) →
      code (SubsetSum [1, 2, 3] 3) ≤ code T) := by
  refine ⟨?_, by decide, by decide, by norm_num [sumAt], ?_⟩
  · simp [SubsetSum, SubsetSumRun, outerLoop, innerLoop]
    norm_num
  · exact (SubsetSum_tie_break [1, 2, 3] 3 (by simp)
      ⟨[0], by simp, by decide, by norm_num [sumAt]⟩).2.2.2.2

theorem selectReceipts_sublist (receipts : List Receipt) :
    ∀ S : List Nat, S.Pairwise (· < ·) → (∀ i ∈ S, i < receipts.length) →
      ∃ sel : List Receipt, selectReceipts receipts S = some sel ∧ sel.length = S.length ∧
        ∀ m : Nat, (∀ i ∈ S, m ≤ i) → sel.Sublist (receipts.drop m) := by
  intro S
  induction S with
  | nil =>
    intro _ _
    exact ⟨[], rfl, rfl, fun m _ => List.nil_sublist _⟩
  | cons i S ih =>
    intro hsorted hlt
    have hi : i < receipts.length := hlt i (List.mem_cons_self _ _)
    obtain ⟨sel, hsel, hlen, hsub⟩ := ih (List.Pairwise.of_cons hsorted)
      (fun j hj => hlt j (List.mem_cons_of_mem _ hj))
    refine ⟨receipts[i] :: sel, ?_, by simp [hlen], ?_⟩
    · simp [selectReceipts, List.getElem?_eq_getElem hi, hsel]
    · intro m hm
      have hmi : m ≤ i := hm i (List.mem_cons_self _ _)
      have h1 : sel.Sublist (receipts.drop (i + 1)) :=
        hsub (i + 1) (fun j hj => (List.pairwise_cons.1 hsorted).1 j hj)
      have h2 : (receipts[i] :: sel).Sublist (receipts.drop i) := by
        rw [List.drop_eq_getElem_cons hi]
        exact h1.cons₂ _
      have h3 : (receipts.drop i).Sublist (receipts.drop m) := by
        have : receipts.drop i = (receipts.drop m).drop (i - m) := by
          rw [List.drop_drop]
          congr 1
          omega
        rw [this]
        exact List.drop_sublist _ _
      exact h2.trans h3

/-- C3: for every amounts list and every target the index list returned by `SubsetSum` is
strictly increasing and each of its indices is below `len(amounts)`; hence in `DeductHandler`
no lookup `receipts[idx]` is out of range, and the selected receipts, one per index, appear
in the order they had in the list of eligible receipts. -/
theorem SubsetSum_indices_increasing_in_range :
    (∀ (amounts : List ℚ) (target : ℚ),
      (SubsetSum amounts target).Pairwise (· < ·) ∧
      (∀ i ∈ SubsetSum amounts target, 0 ≤ i ∧ i < amounts.length)) ∧
    (∀ (receipts : List Receipt) (amount : ℚ),
      ∃ selected : List Receipt, DeductHandler receipts amount = some selected ∧
        selected.length = (SubsetSum (receipts.map (fun r => r.TotalAmount)) amount).length ∧
        selected.Sublist receipts) := by
  have hA : ∀ (amounts : List ℚ) (target : ℚ),
      (SubsetSum amounts target).Pairwise (· < ·) ∧
      (∀ i ∈ SubsetSum amounts target, 0 ≤ i ∧ i < amounts.length) := by
    intro amounts target
    have hsub := SubsetSum_sublist amounts target
    exact ⟨List.Pairwise.sublist hsub (List.pairwise_lt_range _),
      fun i hi => ⟨Nat.zero_le _, lt_of_mem_sublist_range _ _ hsub i hi⟩⟩
  refine ⟨hA, ?_⟩
  intro receipts amount
  obtain ⟨h1, h2⟩ := hA (receipts.map (fun r => r.TotalAmount)) amount
  obtain ⟨sel, hsel, hlen, hsub⟩ := selectReceipts_sublist receipts _ h1
    (fun i hi => by simpa using (h2 i hi).2)
  exact ⟨sel, hsel, hlen, by simpa using hsub 0 (fun _ _ => Nat.zero_le _)⟩

/-- C4: for every amounts list and target such that no non-empty subset of the positions has
a sum at most the target, `SubsetSum` returns the empty index list; in particular for the
empty amounts list with any target, and for the target 0 with any positive amounts. -/
theorem SubsetSum_empty_when_nothing_fits :
    (∀ (amounts : List ℚ) (target : ℚ),
      (∀ S : List Nat, S ≠ [] → S.Sublist (List.range amounts.length) →
        ¬ sumAt amounts S ≤ target) →
      SubsetSum amounts target = []) ∧
    (∀ target : ℚ, SubsetSum [] target = []) ∧
    (∀ amounts : List ℚ, (∀ a ∈ amounts, 0 < a) → SubsetSum amounts 0 = []) := by
  have hA : ∀ (amounts : List ℚ) (target : ℚ),
      (∀ S : List Nat, S ≠ [] → S.Sublist (List.range amounts.length) →
        ¬ sumAt amounts S ≤ target) →
      SubsetSum amounts target = [] := by
    intro amounts target hnone
    obtain ⟨S, hS, h⟩ := best_mem amounts target
    obtain ⟨V, _, _, hc⟩ := best_cases amounts target
    rcases hc with ⟨h0, _⟩ | ⟨L1, c, L2, _, hce, hle, hpos, _⟩
    · rw [SubsetSum, h0]
    · exfalso
      rw [h] at hce
      have hne : S ≠ [] := by
        intro hnil
        rw [← hce, hnil] at hpos
        simp [stateOf, sumAt] at hpos
      apply hnone S hne hS
      rw [← hce] at hle
      exact hle
  refine ⟨hA, fun target => rfl, ?_⟩
  intro amounts hpos
  apply hA
  intro S hne hS
  exact not_le.2 (sumAt_pos amounts hpos S hne (lt_of_mem_sublist_range _ S hS))

/-- C4, at the amounts `[30, 40]` with target `20` (nothing fits), at the empty list with
target `50.00`, and at the amounts `[5, 8]` with target `0`. -/
theorem SubsetSum_empty_when_nothing_fits_witness :
    SubsetSum [30, 40] 20 = [] ∧ SubsetSum [] 50 = [] ∧ SubsetSum [5, 8] 0 = [] := by
  refine ⟨SubsetSum_empty_when_nothing_fits.1 [30, 40] 20 ?_,
    SubsetSum_empty_when_nothing_fits.2.1 50,
    SubsetSum_empty_when_nothing_fits.2.2 [5, 8] (by simp)⟩
  intro S hne hS
  have hmem : S ∈ [[], [0], [1], [0, 1]] := List.mem_sublists.2 hS
  simp only [List.mem_cons, List.mem_singleton] at hmem
  rcases hmem with h | h | h | h | h
  · exact absurd h hne
  · subst h; norm_num [sumAt]
  · subst h; norm_num [sumAt]
  · subst h; norm_num [sumAt]
  · exact absurd h (List.not_mem_nil _)

/-! ## Properties of the path functions -/

theorem takeWhile_append_of_endsElem (p q : List Char) (hq : endsElem q = true) :
    (p ++ q).takeWhile (fun x => x != '/') = p.takeWhile (fun x => x != '/') ∧
    (p ++ q).dropWhile (fun x => x != '/') = p.dropWhile (fun x => x != '/') ++ q := by
  induction p with
  | nil =>
    cases q with
    | nil => simp
    | cons d q =>
      have hd : d = '/' := by simpa [endsElem] using hq
      subst hd
      simp [List.takeWhile, List.dropWhile]
  | cons c p ih =>
    by_cases hc : c = '/'
    · subst hc
      simp [List.takeWhile, List.dropWhile]
    · simp [List.takeWhile_cons, List.dropWhile_cons, hc, ih.1, ih.2]

theorem endsElem_append (p q : List Char) (hq : endsElem q = true) :
    endsElem (p ++ q) = endsElem p := by
  cases p with
  | nil => simpa [endsElem] using hq
  | cons c p => rfl

theorem cleanStep_length (rooted : Bool) (c : Char) (rest : List Char) (st : List Char × Nat) :
    (cleanStep rooted c rest st).1.length ≤ rest.length := by
  unfold cleanStep
  split_ifs with h1 h2 h3
  · exact Nat.le_refl _
  · exact Nat.le_refl _
  · simp
  · have : (c != '/') = true := by simpa using h1
    simp only [List.dropWhile_cons, this, if_true]
    exact (List.dropWhile_sublist _).length_le

theorem cleanStep_append (rooted : Bool) (c : Char) (p q : List Char) (st : List Char × Nat)
    (hq : endsElem q = true) :
    cleanStep rooted c (p ++ q) st
      = ((cleanStep rooted c p st).1 ++ q, (cleanStep rooted c p st).2) := by
  unfold cleanStep
  by_cases h1 : c = '/'
  · simp [h1]
  · rw [if_neg h1, if_neg h1, endsElem_append p q hq]
    by_cases h2 : c = '.' ∧ endsElem p = true
    · rw [if_pos h2, if_pos h2]
    · rw [if_neg h2, if_neg h2]
      have h3 : (c = '.' ∧ (p ++ q).head? = some '.' ∧ endsElem (p ++ q).tail = true)
          ↔ (c = '.' ∧ p.head? = some '.' ∧ endsElem p.tail = true) := by
        cases p with
        | nil =>
          constructor
          · rintro ⟨hc, _, _⟩
            exact absurd ⟨hc, rfl⟩ h2
          · rintro ⟨hc, _, _⟩
            exact absurd ⟨hc, rfl⟩ h2
        | cons d p =>
          simp only [List.cons_append, List.head?_cons, List.tail_cons,
            endsElem_append p q hq]
      by_cases h4 : c = '.' ∧ p.head? = some '.' ∧ endsElem p.tail = true
      · rw [if_pos h4, if_pos (h3.2 h4)]
        cases p with
        | nil => simp at h4
        | cons d p => simp
      · rw [if_neg h4, if_neg (fun h => h4 (h3.1 h))]
        have := takeWhile_append_of_endsElem (c :: p) q hq
        simp only [List.cons_append] at this
        rw [this.1, this.2]

theorem cleanLoop_nil (rooted : Bool) (n : Nat) (st : List Char × Nat) :
    cleanLoop rooted n [] st = st := by
  cases n <;> rfl

/-- The bound on the iterations does not matter once it reaches the length of the input. -/
theorem cleanLoop_fuel (rooted : Bool) :
    ∀ (n m : Nat) (path : List Char) (st : List Char × Nat),
      path.length ≤ n → path.length ≤ m →
      cleanLoop rooted n path st = cleanLoop rooted m path st := by
  intro n
  induction n with
  | zero =>
    intro m path st hn _
    have : path = [] := List.length_eq_zero.1 (Nat.le_zero.1 hn)
    subst this
    rw [cleanLoop_nil, cleanLoop_nil]
  | succ n ih =>
    intro m path st hn hm
    cases path with
    | nil => rw [cleanLoop_nil, cleanLoop_nil]
    | cons c rest =>
      cases m with
      | zero => simp at hm
      | succ m =>
        simp only [cleanLoop]
        have hlen := cleanStep_length rooted c rest st
        simp only [List.length_cons] at hn hm
        exact ih m _ _ (by omega) (by omega)

theorem cleanRun_eq (rooted : Bool) (n : Nat) (path : List Char) (st : List Char × Nat)
    (hn : path.length ≤ n) : cleanLoop rooted n path st = cleanRun rooted path st :=
  cleanLoop_fuel rooted n path.length path st hn (Nat.le_refl _)

theorem cleanRun_nil (rooted : Bool) (st : List Char × Nat) : cleanRun rooted [] st = st := rfl

theorem cleanRun_cons (rooted : Bool) (c : Char) (rest : List Char) (st : List Char × Nat) :
    cleanRun rooted (c :: rest) st
      = cleanRun rooted (cleanStep rooted c rest st).1 (cleanStep rooted c rest st).2 := by
  unfold cleanRun
  simp only [List.length_cons, cleanLoop]
  exact cleanLoop_fuel rooted _ _ _ _ (cleanStep_length rooted c rest st) (Nat.le_refl _)

/-- The loop of `Clean` on an input `p ++ q`, where `q` is empty or starts with a separator,
is the loop on `q` started from the state the loop reaches on `p`. -/
theorem cleanRun_append (rooted : Bool) (q : List Char) (hq : endsElem q = true) :
    ∀ (n : Nat) (p : List Char) (st : List Char × Nat), p.length ≤ n →
      cleanRun rooted (p ++ q) st = cleanRun rooted q (cleanRun rooted p st) := by
  intro n
  induction n with
  | zero =>
    intro p st hp
    have : p = [] := List.length_eq_zero.1 (Nat.le_zero.1 hp)
    subst this
    rfl
  | succ n ih =>
    intro p st hp
    cases p with
    | nil => rfl
    | cons c p =>
      rw [List.cons_append, cleanRun_cons, cleanRun_cons, cleanStep_append rooted c p q st hq]
      have hlen := cleanStep_length rooted c p st
      simp only [List.length_cons] at hp
      exact ih _ _ (by omega)

theorem cleanStep_elem (rooted : Bool) (c : Char) (e : List Char) (st : List Char × Nat)
    (he : isElem (c :: e)) :
    cleanStep rooted c e st = ([], (appendElem rooted st.1 (c :: e), st.2)) := by
  obtain ⟨_, hsep, hdot, hdotdot⟩ := he
  have hall : ∀ x ∈ c :: e, (x != '/') = true := by
    intro x hx
    have : x ≠ '/' := fun h => hsep (h ▸ hx)
    simpa using this
  have h1 : c ≠ '/' := by simpa using hall c (List.mem_cons_self _ _)
  have h2 : ¬ (c = '.' ∧ endsElem e = true) := by
    rintro ⟨hc, hend⟩
    cases e with
    | nil => exact hdot (by rw [hc])
    | cons d e =>
      have hd : d = '/' := by simpa [endsElem] using hend
      exact hsep (by simp [hd])
  have h3 : ¬ (c = '.' ∧ e.head? = some '.' ∧ endsElem e.tail = true) := by
    rintro ⟨hc, hhead, hend⟩
    cases e with
    | nil => simp at hhead
    | cons d e =>
      have hd : d = '.' := by simpa using hhead
      cases e with
      | nil => exact hdotdot (by rw [hc, hd])
      | cons d2 e =>
        have hd2 : d2 = '/' := by simpa [endsElem] using hend
        exact hsep (by simp [hd2])
  unfold cleanStep
  rw [if_neg h1, if_neg h2, if_neg h3, List.takeWhile_eq_self_iff.2 hall,
    List.dropWhile_eq_nil_iff.2 (by simpa using hall)]

/-- The loop of `Clean` copies an ordinary element into the buffer. -/
theorem cleanRun_elem (rooted : Bool) (e q : List Char) (st : List Char × Nat)
    (he : isElem e) (hq : endsElem q = true) :
    cleanRun rooted (e ++ q) st = cleanRun rooted q (appendElem rooted st.1 e, st.2) := by
  cases e with
  | nil => exact absurd rfl he.1
  | cons c e =>
    rw [List.cons_append, cleanRun_cons, cleanStep_append rooted c e q st hq,
      cleanStep_elem rooted c e st he]
    rfl

theorem cleanRun_sep (rooted : Bool) (q : List Char) (st : List Char × Nat) :
    cleanRun rooted ('/' :: q) st = cleanRun rooted q st := by
  rw [cleanRun_cons]
  simp [cleanStep]

theorem cleanState_eq (path : List Char) :
    cleanState path
      = if path.head? = some '/' then cleanRun true (path.drop 1) (['/'], 1)
        else cleanRun false path ([], 0) := by
  unfold cleanState
  by_cases h : path.head? = some '/'
  · simp only [h, beq_self_eq_true, if_true]
    exact cleanRun_eq true _ _ _ (by simp)
  · have : (path.head? == some '/') = false := by simpa using h
    simp only [this, if_neg h]
    rfl

/-- The state of `Clean` on `p ++ q`, for `p` not empty and `q` empty or starting with a
separator, is the loop on `q` started from the state on `p`. -/
theorem cleanState_append (p q : List Char) (hp : p ≠ []) (hq : endsElem q = true) :
    cleanState (p ++ q) = cleanRun (p.head? == some '/') q (cleanState p) := by
  cases p with
  | nil => exact absurd rfl hp
  | cons c p =>
    rw [cleanState_eq, cleanState_eq]
    simp only [List.cons_append, List.head?_cons, List.drop_succ_cons, List.drop_zero]
    by_cases h : c = '/'
    · subst h
      simp only [if_true, beq_self_eq_true]
      exact cleanRun_append true q hq p.length p _ (Nat.le_refl _)
    · have h2 : ¬ (some c = some '/') := by simpa using h
      have h3 : (some c == some '/') = false := by simpa using h
      rw [if_neg h2, if_neg h2, h3]
      exact cleanRun_append false q hq (c :: p).length (c :: p) _ (Nat.le_refl _)

/-- Appending a separator and an ordinary element to a non-empty path appends the element to
the buffer of `Clean`. -/
theorem cleanState_push (p e : List Char) (hp : p ≠ []) (he : isElem e) :
    cleanState (p ++ '/' :: e)
      = (appendElem (p.head? == some '/') (cleanState p).1 e, (cleanState p).2) := by
  rw [cleanState_append p ('/' :: e) hp rfl, cleanRun_sep]
  have := cleanRun_elem (p.head? == some '/') e [] (cleanState p) he rfl
  rw [List.append_nil] at this
  rw [this, cleanRun_nil]

theorem stablePath_push (p e : List Char) (hp : stablePath p) (he : isElem e) :
    stablePath (p ++ '/' :: e) := by
  obtain ⟨hne, hst, hroot⟩ := hp
  refine ⟨by simp, ?_, ?_⟩
  · rw [cleanState_push p e hne he, hst]
    unfold appendElem
    cases p with
    | nil => exact absurd rfl hne
    | cons c p =>
      by_cases hc : c = '/'
      · subst hc
        have hp2 : p ≠ [] := fun h => hroot (by rw [h])
        have hlen : (('/' :: p).length != 1) = true := by
          cases p with
          | nil => exact absurd rfl hp2
          | cons d p => simp
        simp [hp2]
      · have h3 : (some c == some '/') = false := by simpa using hc
        simp [h3]
  · intro h
    have := congrArg List.length h
    simp at this
    exact he.1 (List.length_eq_zero.1 (by omega))

theorem stablePath_of_clean (p : List Char) (hclean : cleanChars p = p) (hdot : p ≠ ['.'])
    (hsep : p.getLast? ≠ some '/') : stablePath p := by
  have hne : p ≠ [] := by
    intro h
    rw [h] at hclean
    simp [cleanChars] at hclean
  refine ⟨hne, ?_, fun h => hsep (by rw [h]; rfl)⟩
  unfold cleanChars at hclean
  rw [if_neg hne] at hclean
  by_cases h0 : (cleanState p).1.length = 0
  · simp only [h0, if_true] at hclean
    exact absurd hclean.symm hdot
  · simpa [h0] using hclean

theorem cleanChars_of_stablePath (p : List Char) (hp : stablePath p) : cleanChars p = p := by
  obtain ⟨hne, hst, _⟩ := hp
  unfold cleanChars
  rw [if_neg hne]
  have h0 : ¬ p.length = 0 := fun h => hne (List.length_eq_zero.1 h)
  simp only [hst, if_neg h0]

theorem Join_pair (a b : String) (ha : a ≠ "") : Join [a, b] = Clean (a ++ "/" ++ b) := by
  have h : (a == "") = false := by simpa using ha
  simp [Join, List.dropWhile, h, String.intercalate, String.intercalate.go]

theorem digitChar_ok : ∀ d : Nat, d < 10 → Nat.digitChar d ≠ '/' ∧ Nat.digitChar d ≠ '.' := by
  decide

theorem toDigitsCore_ok (fuel : Nat) :
    ∀ (n : Nat) (ds : List Char), (∀ c ∈ ds, c ≠ '/' ∧ c ≠ '.') →
      ∀ c ∈ Nat.toDigitsCore 10 fuel n ds, c ≠ '/' ∧ c ≠ '.' := by
  induction fuel with
  | zero => intro n ds h; simpa [Nat.toDigitsCore] using h
  | succ fuel ih =>
    intro n ds h
    have hd : ∀ c ∈ Nat.digitChar (n % 10) :: ds, c ≠ '/' ∧ c ≠ '.' := by
      intro c hc
      rcases List.mem_cons.1 hc with rfl | hc
      · exact digitChar_ok _ (Nat.mod_lt _ (by decide))
      · exact h c hc
    simp only [Nat.toDigitsCore]
    split_ifs
    · exact hd
    · exact ih _ _ hd

theorem toDigitsCore_ne_nil (fuel : Nat) :
    ∀ (n : Nat) (ds : List Char), ds ≠ [] → Nat.toDigitsCore 10 fuel n ds ≠ [] := by
  induction fuel with
  | zero => intro n ds h; simpa [Nat.toDigitsCore] using h
  | succ fuel ih =>
    intro n ds _
    simp only [Nat.toDigitsCore]
    split_ifs
    · simp
    · exact ih _ _ (by simp)

theorem toDigits_ok (n : Nat) :
    Nat.toDigits 10 n ≠ [] ∧ ∀ c ∈ Nat.toDigits 10 n, c ≠ '/' ∧ c ≠ '.' := by
  constructor
  · unfold Nat.toDigits
    simp only [Nat.toDigitsCore]
    split_ifs
    · simp
    · exact toDigitsCore_ne_nil _ _ _ (by simp)
  · exact toDigitsCore_ok _ _ _ (by simp)

/-- The decimal rendering of a year is an ordinary path element. -/
theorem Sprintf_d_isElem (year : Int) : isElem (Sprintf_d year).data := by
  have key : (Sprintf_d year).data ≠ [] ∧ ∀ c ∈ (Sprintf_d year).data, c ≠ '/' ∧ c ≠ '.' := by
    cases year with
    | ofNat m =>
      show (Nat.toDigits 10 m) ≠ [] ∧ ∀ c ∈ Nat.toDigits 10 m, c ≠ '/' ∧ c ≠ '.'
      exact toDigits_ok m
    | negSucc m =>
      show ('-' :: Nat.toDigits 10 (m + 1)) ≠ [] ∧
        ∀ c ∈ '-' :: Nat.toDigits 10 (m + 1), c ≠ '/' ∧ c ≠ '.'
      refine ⟨by simp, ?_⟩
      intro c hc
      rcases List.mem_cons.1 hc with rfl | hc
      · decide
      · exact (toDigits_ok _).2 c hc
  obtain ⟨hne, hall⟩ := key
  refine ⟨hne, fun h => (hall _ h).1 rfl, ?_, ?_⟩
  · intro h
    exact (hall '.' (by rw [h]; simp)).2 rfl
  · intro h
    exact (hall '.' (by rw [h]; simp)).2 rfl

theorem data_sep_append (a e : String) : (a ++ "/" ++ e).data = a.data ++ '/' :: e.data := by
  simp [String.data_append]

theorem ne_empty_of_stablePath (a : String) (ha : stablePath a.data) : a ≠ "" := by
  intro h
  rw [h] at ha
  exact ha.1 rfl

/-- Cleaning a stable path followed by a separator and an ordinary element changes nothing,
and the result is stable again. -/
theorem Clean_push (a e : String) (ha : stablePath a.data) (he : isElem e.data) :
    Clean (a ++ "/" ++ e) = a ++ "/" ++ e ∧ stablePath (a ++ "/" ++ e).data := by
  have hst : stablePath (a ++ "/" ++ e).data := by
    rw [data_sep_append]
    exact stablePath_push _ _ ha he
  refine ⟨?_, hst⟩
  apply String.ext
  show cleanChars (a ++ "/" ++ e).data = (a ++ "/" ++ e).data
  exact cleanChars_of_stablePath _ hst

/-- The path of `getReceiptFilePath` for a stable base directory and an ordinary file name. -/
theorem getReceiptFilePath_of_stablePath (baseDir : String) (year : Int) (filename : String)
    (used : Bool) (hbase : stablePath baseDir.data) (hname : isElem filename.data) :
    getReceiptFilePath baseDir year filename used
      = baseDir ++ "/" ++ (if used then "used" else "unused") ++ "/" ++ Sprintf_d year
          ++ "/" ++ filename := by
  have hy := Sprintf_d_isElem year
  have hsub : ∀ s : String, stablePath s.data → isElem s.data →
      Join [Join [baseDir, Join [s, Sprintf_d year]], filename]
        = baseDir ++ "/" ++ s ++ "/" ++ Sprintf_d year ++ "/" ++ filename := by
    intro s hs hse
    rw [Join_pair s _ (ne_empty_of_stablePath s hs), (Clean_push s _ hs hy).1,
      Join_pair baseDir _ (ne_empty_of_stablePath _ hbase)]
    have h1 := Clean_push baseDir s hbase hse
    have h2 := Clean_push (baseDir ++ "/" ++ s) (Sprintf_d year) h1.2 hy
    have hassoc : baseDir ++ "/" ++ (s ++ "/" ++ Sprintf_d year)
        = baseDir ++ "/" ++ s ++ "/" ++ Sprintf_d year := by
      simp [String.append_assoc]
    rw [hassoc, h2.1, Join_pair _ _ (ne_empty_of_stablePath _ h2.2)]
    exact (Clean_push _ filename h2.2 hname).1
  unfold getReceiptFilePath
  cases used with
  | true => exact hsub "used" (by decide) (by decide)
  | false => exact hsub "unused" (by decide) (by decide)

/-- C5, amended (canonical path rule): for every root directory that is a clean path, is not
`.` and has no trailing separator, every year, every file name that is not empty, contains no
separator and is neither `.` nor `..`, and every usage flag, `getReceiptFilePath` returns
`root/used/year/filename` or `root/unused/year/filename`, the year in decimal. -/
theorem getReceiptFilePath_canonical (root : String) (year : Int) (filename : String)
    (used : Bool) (hclean : Clean root = root) (hdot : root ≠ ".")
    (hsep : root.data.getLast? ≠ some '/') (hname : isElem filename.data) :
    getReceiptFilePath root year filename used
      = root ++ "/" ++ (if used then "used" else "unused") ++ "/" ++ Sprintf_d year
          ++ "/" ++ filename := by
  apply getReceiptFilePath_of_stablePath root year filename used _ hname
  apply stablePath_of_clean _ _ _ hsep
  · have := congrArg String.data hclean
    exact this
  · intro h
    exact hdot (String.ext h)

/-- C5, amended, at the root `/data/hsa` and the file name `1700000000_receipt.jpg`: unused in
2023 and used in 2024. -/
theorem getReceiptFilePath_canonical_witness :
    getReceiptFilePath "/data/hsa" 2023 "1700000000_receipt.jpg" false
      = "/data/hsa/unused/2023/1700000000_receipt.jpg" ∧
    getReceiptFilePath "/data/hsa" 2024 "1700000000_receipt.jpg" true
      = "/data/hsa/used/2024/1700000000_receipt.jpg" :=
  ⟨getReceiptFilePath_canonical "/data/hsa" 2023 "1700000000_receipt.jpg" false
      (by decide) (by decide) (by decide) (by decide),
   getReceiptFilePath_canonical "/data/hsa" 2024 "1700000000_receipt.jpg" true
      (by decide) (by decide) (by decide) (by decide)⟩

/-- C5 as stated fails: the root `.` is a clean path without trailing separator and `Join`
drops it; the file names `..`, `.` and the empty one contain no separator and `Join` resolves
them. -/
theorem getReceiptFilePath_not_concatenation :
    (Clean "." = "." ∧ (".".data.getLast? ≠ some '/') ∧ '/' ∉ "r.jpg".data ∧
      getReceiptFilePath "." 2023 "r.jpg" false = "unused/2023/r.jpg" ∧
      getReceiptFilePath "." 2023 "r.jpg" false
        ≠ "." ++ "/" ++ "unused" ++ "/" ++ Sprintf_d 2023 ++ "/" ++ "r.jpg") ∧
    (Clean "/data/hsa" = "/data/hsa" ∧ ("/data/hsa".data.getLast? ≠ some '/') ∧
      '/' ∉ "..".data ∧
      getReceiptFilePath "/data/hsa" 2023 ".." false = "/data/hsa/unused" ∧
      getReceiptFilePath "/data/hsa" 2023 ".." false
        ≠ "/data/hsa" ++ "/" ++ "unused" ++ "/" ++ Sprintf_d 2023 ++ "/" ++ "..") ∧
    getReceiptFilePath "/data/hsa" 2023 "." false = "/data/hsa/unused/2023" ∧
    getReceiptFilePath "/data/hsa" 2023 "" false = "/data/hsa/unused/2023" := by
  decide

/-! ## Properties of `moveReceiptFile` -/

/-- A call of `moveReceiptFile` without error returns the canonical target path. -/
theorem moveReceiptFile_ok_path {σ H : Type} (fs : FileSystem σ H) (oldPath baseDir : String)
    (year : Int) (filename : String) (toUsed : Bool) (s : σ)
    (h : (moveReceiptFile fs oldPath baseDir year filename toUsed s).1.2 = none) :
    (moveReceiptFile fs oldPath baseDir year filename toUsed s).1.1
      = getReceiptFilePath baseDir year filename toUsed := by
  revert h
  unfold moveReceiptFile
  simp only
  split_ifs
  · intro _; rfl
  · split
    · intro h; simp at h
    · split
      · intro _; rfl
      · split
        · intro h; simp at h
        · split
          · intro h; simp at h
          · split
            · intro h; simp at h
            · intro _; rfl

/-- C6 (relocate idempotence): when the current path is the computed canonical target path,
`moveReceiptFile` returns that path with no error and leaves the file system as it is;
consequently, after a first call that succeeds with path `p` in state `s1`, a second call
with the same root, year, file name and flag on the current path `p` returns `p` with no
error, and no file-system action. -/
theorem moveReceiptFile_idempotent {σ H : Type} (fs : FileSystem σ H) (baseDir : String)
    (year : Int) (filename : String) (toUsed : Bool) :
    (∀ s : σ,
      moveReceiptFile fs (getReceiptFilePath baseDir year filename toUsed) baseDir year
          filename toUsed s
        = ((getReceiptFilePath baseDir year filename toUsed, none), s)) ∧
    (∀ (oldPath p : String) (s s1 : σ),
      moveReceiptFile fs oldPath baseDir year filename toUsed s = ((p, none), s1) →
      moveReceiptFile fs p baseDir year filename toUsed s1 = ((p, none), s1)) := by
  have h1 : ∀ s : σ,
      moveReceiptFile fs (getReceiptFilePath baseDir year filename toUsed) baseDir year
          filename toUsed s
        = ((getReceiptFilePath baseDir year filename toUsed, none), s) := by
    intro s
    unfold moveReceiptFile
    simp
  refine ⟨h1, ?_⟩
  intro oldPath p s s1 h
  have hp := moveReceiptFile_ok_path fs oldPath baseDir year filename toUsed s (by rw [h])
  rw [h] at hp
  simp only at hp
  rw [hp]
  exact h1 s1

/-- C6, on the example file system: a first move from the unused area of 2023 to the used
area of 2024 renames the file; the second call returns the same path and the journal of the
file system does not grow. -/
theorem moveReceiptFile_idempotent_witness :
    moveReceiptFile (journalFS noFaults) "/data/hsa/unused/2023/f.jpg" "/data/hsa" 2024
        "f.jpg" true []
      = (("/data/hsa/used/2024/f.jpg", none),
          ["mkdir /data/hsa/used/2024",
           "rename /data/hsa/unused/2023/f.jpg /data/hsa/used/2024/f.jpg"]) ∧
    moveReceiptFile (journalFS noFaults) "/data/hsa/used/2024/f.jpg" "/data/hsa" 2024
        "f.jpg" true
        ["mkdir /data/hsa/used/2024",
         "rename /data/hsa/unused/2023/f.jpg /data/hsa/used/2024/f.jpg"]
      = (("/data/hsa/used/2024/f.jpg", none),
          ["mkdir /data/hsa/used/2024",
           "rename /data/hsa/unused/2023/f.jpg /data/hsa/used/2024/f.jpg"]) :=
  ⟨by decide,
   (moveReceiptFile_idempotent (journalFS noFaults) "/data/hsa" 2024 "f.jpg" true).2
     "/data/hsa/unused/2023/f.jpg" "/data/hsa/used/2024/f.jpg" [] _ (by decide)⟩

/-- C8 (relocate failure conditions): when the target path differs from the current path, name
the results of the primitives along the run: `e1` for creating the directory of the target,
`e2` for the rename, `o3` for opening the source, `c4` for creating the destination, each in
the state its predecessor leaves.  Then `moveReceiptFile` returns an error exactly when the
directory creation fails, or the rename fails and the open, the create or the copy fails; with
an error the path is empty, without one it is the target; and when the rename fails and the
copy succeeds the target is returned with no error, whatever the removal of the original
does. -/
theorem moveReceiptFile_error_iff {σ H : Type} (fs : FileSystem σ H) (oldPath baseDir : String)
    (year : Int) (filename : String) (toUsed : Bool) (s : σ)
    (hne : oldPath ≠ getReceiptFilePath baseDir year filename toUsed)
    (e1 e2 : Option String) (o3 c4 : Except String H) (s1 s2 s3 s4 : σ)
    (h1 : fs.MkdirAll (Dir (getReceiptFilePath baseDir year filename toUsed)) s = (e1, s1))
    (h2 : fs.Rename oldPath (getReceiptFilePath baseDir year filename toUsed) s1 = (e2, s2))
    (h3 : fs.Open oldPath s2 = (o3, s3))
    (h4 : fs.Create (getReceiptFilePath baseDir year filename toUsed) s3 = (c4, s4)) :
    ((moveReceiptFile fs oldPath baseDir year filename toUsed s).1.2 ≠ none ↔
      (e1 ≠ none ∨ (e2 ≠ none ∧ ((∃ err, o3 = Except.error err) ∨ (∃ err, c4 = Except.error err) ∨
        ∃ src dst, o3 = Except.ok src ∧ c4 = Except.ok dst ∧ (fs.Copy dst src s4).1 ≠ none)))) ∧
    ((moveReceiptFile fs oldPath baseDir year filename toUsed s).1.2 ≠ none →
      (moveReceiptFile fs oldPath baseDir year filename toUsed s).1.1 = "") ∧
    ((moveReceiptFile fs oldPath baseDir year filename toUsed s).1.2 = none →
      (moveReceiptFile fs oldPath baseDir year filename toUsed s).1.1
        = getReceiptFilePath baseDir year filename toUsed) ∧
    (∀ src dst, e1 = none → e2 ≠ none → o3 = Except.ok src → c4 = Except.ok dst →
      (fs.Copy dst src s4).1 = none →
      (moveReceiptFile fs oldPath baseDir year filename toUsed s).1
        = (getReceiptFilePath baseDir year filename toUsed, none)) := by
  unfold moveReceiptFile ensureDirectoryExists
  simp only [if_neg hne, h1]
  cases e1 with
  | some err => simp
  | none =>
    simp only [h2]
    cases e2 with
    | none => simp
    | some err2 =>
      simp only [h3]
      cases o3 with
      | error err3 => simp
      | ok src =>
        simp only [h4]
        cases c4 with
        | error err4 => simp
        | ok dst =>
          cases h5 : fs.Copy dst src s4 with
          | mk e5 s5 =>
            cases e5 with
            | none => simp [h5]
            | some err5 => simp [h5]

/-- C8, on the example file system where the rename and the removal of the original fail and
the copy succeeds: the target path is returned with no error. -/
theorem moveReceiptFile_error_iff_witness :
    (moveReceiptFile (journalFS ⟨false, true, false, false, false, false, true⟩)
        "/data/hsa/unused/2023/f.jpg" "/data/hsa" 2024 "f.jpg" true []).1
      = ("/data/hsa/used/2024/f.jpg", none) :=
  (moveReceiptFile_error_iff (journalFS ⟨false, true, false, false, false, false, true⟩)
      "/data/hsa/unused/2023/f.jpg" "/data/hsa" 2024 "f.jpg" true [] (by decide)
      none (some "cross-device link") (Except.ok "/data/hsa/unused/2023/f.jpg")
      (Except.ok "/data/hsa/used/2024/f.jpg") _ _ _ _ rfl rfl rfl rfl).2.2.2
    "/data/hsa/unused/2023/f.jpg" "/data/hsa/used/2024/f.jpg" rfl (by decide) rfl rfl
    (by decide)

/-! ## The base name of a canonical path -/

theorem backtrack_ge (out : List Char) (dotdot : Nat) :
    ∀ w : Nat, dotdot ≤ w → dotdot ≤ backtrack out dotdot w := by
  intro w
  induction w with
  | zero => intro h; simpa [backtrack] using h
  | succ w ih =>
    intro h
    unfold backtrack
    split_ifs with hc
    · exact ih (by omega)
    · exact h

theorem dotdotStep_rooted (out : List Char) (dotdot : Nat)
    (h : out.head? = some '/' ∧ 1 ≤ dotdot) :
    (dotdotStep true out dotdot).1.head? = some '/' ∧ 1 ≤ (dotdotStep true out dotdot).2 := by
  obtain ⟨hh, hd⟩ := h
  unfold dotdotStep
  by_cases hlen : out.length > dotdot
  · rw [if_pos hlen]
    refine ⟨?_, hd⟩
    have hk : 1 ≤ backtrack out dotdot (out.length - 1) :=
      le_trans hd (backtrack_ge _ _ _ (by omega))
    obtain ⟨k, hk2⟩ : ∃ k, backtrack out dotdot (out.length - 1) = k + 1 :=
      ⟨_, (Nat.succ_pred_eq_of_pos hk).symm⟩
    cases out with
    | nil => simp at hh
    | cons a l =>
      show (List.take (backtrack (a :: l) dotdot ((a :: l).length - 1)) (a :: l)).head? = _
      rw [hk2]
      simpa using hh
  · rw [if_neg hlen]
    exact ⟨hh, hd⟩

/-- In a rooted path the buffer of `Clean` keeps its leading separator. -/
theorem cleanStep_rooted (c : Char) (rest : List Char) (st : List Char × Nat)
    (h : st.1.head? = some '/' ∧ 1 ≤ st.2) :
    (cleanStep true c rest st).2.1.head? = some '/' ∧ 1 ≤ (cleanStep true c rest st).2.2 := by
  have hh := h.1
  have hd := h.2
  unfold cleanStep
  by_cases h1 : c = '/'
  · rw [if_pos h1]; exact h
  · rw [if_neg h1]
    by_cases h2 : c = '.' ∧ endsElem rest = true
    · rw [if_pos h2]; exact h
    · rw [if_neg h2]
      by_cases h3 : c = '.' ∧ rest.head? = some '.' ∧ endsElem rest.tail = true
      · rw [if_pos h3]
        exact dotdotStep_rooted st.1 st.2 h
      · rw [if_neg h3]
        refine ⟨?_, hd⟩
        show (appendElem true st.1 _).head? = some '/'
        unfold appendElem
        cases hst : st.1 with
        | nil => rw [hst] at hh; simp at hh
        | cons a l =>
          rw [hst] at hh
          split_ifs <;> simpa using hh

theorem cleanLoop_rooted :
    ∀ (n : Nat) (path : List Char) (st : List Char × Nat),
      (st.1.head? = some '/' ∧ 1 ≤ st.2) →
      (cleanLoop true n path st).1.head? = some '/' ∧ 1 ≤ (cleanLoop true n path st).2 := by
  intro n
  induction n with
  | zero => intro path st h; exact h
  | succ n ih =>
    intro path st h
    cases path with
    | nil => exact h
    | cons c rest =>
      simp only [cleanLoop]
      exact ih _ _ (cleanStep_rooted c rest st h)

theorem cleanState_rooted (path : List Char) (h : path.head? = some '/') :
    (cleanState path).1.head? = some '/' := by
  unfold cleanState
  simp only [h, beq_self_eq_true, if_true]
  exact (cleanLoop_rooted _ _ (['/'], 1) ⟨rfl, Nat.le_refl _⟩).1

/-- The characters of a cleaned path that ends in an ordinary element `e`: the element alone,
or a prefix, a separator and the element. -/
theorem cleanChars_push_shape (p e : List Char) (hp : p ≠ []) (he : isElem e) :
    cleanChars (p ++ '/' :: e) = e ∨ ∃ x, cleanChars (p ++ '/' :: e) = x ++ '/' :: e := by
  have hne : p ++ '/' :: e ≠ [] := by simp
  have hst := cleanState_push p e hp he
  have hout : cleanChars (p ++ '/' :: e) = appendElem (p.head? == some '/') (cleanState p).1 e := by
    unfold cleanChars
    rw [if_neg hne, hst]
    have : ¬ (appendElem (p.head? == some '/') (cleanState p).1 e).length = 0 := by
      unfold appendElem
      intro h0
      have := List.length_eq_zero.1 h0
      simp at this
      exact he.1 this.2
    simp only [this, if_false]
  rw [hout]
  unfold appendElem
  by_cases hr : p.head? = some '/'
  · have hhead := cleanState_rooted p hr
    have hb : (p.head? == some '/') = true := by simpa using hr
    rw [hb]
    cases ho : (cleanState p).1 with
    | nil => rw [ho] at hhead; simp at hhead
    | cons a l =>
      rw [ho] at hhead
      have ha : a = '/' := by simpa using hhead
      subst ha
      cases l with
      | nil => right; exact ⟨[], by simp⟩
      | cons b l => right; exact ⟨'/' :: b :: l, by simp⟩
  · have hb : (p.head? == some '/') = false := by simpa using hr
    rw [hb]
    cases ho : (cleanState p).1 with
    | nil => left; simp
    | cons a l => right; exact ⟨a :: l, by simp⟩


theorem base_parts (L e : List Char) (he : isElem e)
    (hL : L = e ∨ ∃ x, L = x ++ '/' :: e) :
    L ≠ [] ∧ (L.reverse.dropWhile (fun x => x == '/')).reverse = L ∧
      (L.reverse.takeWhile (fun x => x != '/')).reverse = e := by
  obtain ⟨hne, hsep, _, _⟩ := he
  have hall : ∀ x ∈ e.reverse, (x != '/') = true := by
    intro x hx
    have : x ≠ '/' := fun h => hsep (h ▸ List.mem_reverse.1 hx)
    simpa using this
  obtain ⟨q, hq, hrev⟩ : ∃ q, endsElem q = true ∧ L.reverse = e.reverse ++ q := by
    rcases hL with rfl | ⟨x, rfl⟩
    · exact ⟨[], rfl, by simp⟩
    · exact ⟨'/' :: x.reverse, rfl, by simp⟩
  have hLne : L ≠ [] := by
    intro h
    rw [h] at hrev
    have := congrArg List.length hrev
    simp only [List.reverse_nil, List.length_nil, List.length_append, List.length_reverse] at this
    exact hne (List.length_eq_zero.1 (by omega))
  refine ⟨hLne, ?_, ?_⟩
  · cases hr : e.reverse with
    | nil => exact absurd (List.reverse_eq_nil_iff.1 hr) hne
    | cons z w =>
      have hz : (z == '/') = false := by
        have := hall z (by rw [hr]; exact List.mem_cons_self _ _)
        simpa using this
      rw [hrev, hr, List.cons_append, List.dropWhile_cons, hz]
      simp only [Bool.false_eq_true, if_false]
      rw [← List.cons_append, ← hr, ← hrev, List.reverse_reverse]
  · rw [hrev, (takeWhile_append_of_endsElem e.reverse q hq).1,
      List.takeWhile_eq_self_iff.2 hall, List.reverse_reverse]

theorem Base_of_shape (L e : List Char) (he : isElem e)
    (hL : L = e ∨ ∃ x, L = x ++ '/' :: e) : Base (String.mk L) = String.mk e := by
  obtain ⟨hne, h1, h2⟩ := base_parts L e he hL
  have hs : String.mk L ≠ "" := by
    intro h
    exact hne (congrArg String.data h)
  unfold Base
  rw [if_neg hs]
  simp only [h1, h2]
  rw [if_neg he.1]

theorem cleanChars_ne_nil (p : List Char) : cleanChars p ≠ [] := by
  unfold cleanChars
  by_cases h1 : p = []
  · rw [if_pos h1]; simp
  · rw [if_neg h1]
    by_cases h2 : (cleanState p).1.length = 0
    · simp only [h2, if_true]; simp
    · simp only [h2, if_false]
      exact fun h => h2 (by rw [h]; rfl)

theorem Clean_ne_empty (p : String) : Clean p ≠ "" := by
  intro h
  exact cleanChars_ne_nil p.data (congrArg String.data h)

theorem Join_pair_ne_empty (a b : String) (hb : b ≠ "") : Join [a, b] ≠ "" := by
  by_cases ha : a = ""
  · subst ha
    have h : (b == "") = false := by simpa using hb
    have : Join ["", b] = Clean b := by
      simp [Join, List.dropWhile, h, String.intercalate, String.intercalate.go]
    rw [this]
    exact Clean_ne_empty b
  · rw [Join_pair a b ha]
    exact Clean_ne_empty _

/-- The base name of a path of `getReceiptFilePath` is the file name it was built from, for
every base directory, when the file name is an ordinary element. -/
theorem Base_getReceiptFilePath (baseDir : String) (year : Int) (filename : String)
    (used : Bool) (hname : isElem filename.data) :
    Base (getReceiptFilePath baseDir year filename used) = filename := by
  have key : ∀ fullDir : String, fullDir ≠ "" → Base (Join [fullDir, filename]) = filename := by
    intro fullDir hfull
    rw [Join_pair fullDir filename hfull]
    have hne : fullDir.data ≠ [] := fun h => hfull (String.ext h)
    have hshape := cleanChars_push_shape fullDir.data filename.data hne hname
    have : Clean (fullDir ++ "/" ++ filename)
        = String.mk (cleanChars (fullDir.data ++ '/' :: filename.data)) := by
      unfold Clean
      rw [data_sep_append]
    rw [this]
    exact Base_of_shape _ _ hname hshape
  unfold getReceiptFilePath
  apply key
  apply Join_pair_ne_empty
  cases used with
  | true =>
    exact Join_pair_ne_empty "used" _
      (fun h => (Sprintf_d_isElem year).1 (congrArg String.data h))
  | false =>
    exact Join_pair_ne_empty "unused" _
      (fun h => (Sprintf_d_isElem year).1 (congrArg String.data h))

/-! ## Properties of the update handler -/

theorem updateVendor_frame (updates : String → Option JSONValue) (r : Receipt) :
    (updateVendor updates r).ID = r.ID ∧ (updateVendor updates r).ImagePath = r.ImagePath ∧
    (updateVendor updates r).Used = r.Used ∧ (updateVendor updates r).UsedDate = r.UsedDate ∧
    (updateVendor updates r).Date = r.Date := by
  unfold updateVendor
  cases asString (updates "vendor") <;> simp

theorem updateTotalAmount_frame (updates : String → Option JSONValue) (r : Receipt) :
    (updateTotalAmount updates r).ID = r.ID ∧
    (updateTotalAmount updates r).ImagePath = r.ImagePath ∧
    (updateTotalAmount updates r).Used = r.Used ∧
    (updateTotalAmount updates r).UsedDate = r.UsedDate ∧
    (updateTotalAmount updates r).Date = r.Date := by
  unfold updateTotalAmount
  cases asFloat64 (updates "total_amount") <;> simp

theorem updateDate_frame (parseDate : String → Option Time)
    (updates : String → Option JSONValue) (r : Receipt) :
    (updateDate parseDate updates r).ID = r.ID ∧
    (updateDate parseDate updates r).ImagePath = r.ImagePath ∧
    (updateDate parseDate updates r).Used = r.Used ∧
    (updateDate parseDate updates r).UsedDate = r.UsedDate ∧
    (asString (updates "date") = none → (updateDate parseDate updates r).Date = r.Date) := by
  unfold updateDate
  cases asString (updates "date") with
  | none => simp
  | some ds => cases h : parseDate ds <;> simp [h]

theorem updateHSAQualified_frame (updates : String → Option JSONValue) (r : Receipt) :
    (updateHSAQualified updates r).ID = r.ID ∧
    (updateHSAQualified updates r).ImagePath = r.ImagePath ∧
    (updateHSAQualified updates r).Used = r.Used ∧
    (updateHSAQualified updates r).UsedDate = r.UsedDate ∧
    (updateHSAQualified updates r).Date = r.Date := by
  unfold updateHSAQualified
  cases asBool (updates "hsa_qualified") <;> simp

theorem updateHSAStatus_frame (updates : String → Option JSONValue) (r : Receipt) :
    (updateHSAStatus updates r).ID = r.ID ∧
    (updateHSAStatus updates r).ImagePath = r.ImagePath ∧
    (updateHSAStatus updates r).Used = r.Used ∧
    (updateHSAStatus updates r).UsedDate = r.UsedDate ∧
    (updateHSAStatus updates r).Date = r.Date := by
  unfold updateHSAStatus
  cases asString (updates "hsa_status") <;> simp

theorem updateUseReason_frame (updates : String → Option JSONValue) (r : Receipt) :
    (updateUseReason updates r).ID = r.ID ∧
    (updateUseReason updates r).ImagePath = r.ImagePath ∧
    (updateUseReason updates r).Used = r.Used ∧
    (updateUseReason updates r).UsedDate = r.UsedDate ∧
    (updateUseReason updates r).Date = r.Date := by
  unfold updateUseReason
  cases asString (updates "use_reason") <;> simp

theorem updateUsed_frame (now : Time) (updates : String → Option JSONValue) (r : Receipt)
    (w : Bool) :
    (updateUsed now updates r w).1.ID = r.ID ∧
    (updateUsed now updates r w).1.ImagePath = r.ImagePath ∧
    (updateUsed now updates r w).1.Date = r.Date ∧
    (∀ b, asBool (updates "used") = some b →
      (updateUsed now updates r w).2 = b ∧ (updateUsed now updates r w).1.Used = b ∧
      (updateUsed now updates r w).1.UsedDate = if b then some now else none) ∧
    (asBool (updates "used") = none →
      (updateUsed now updates r w).2 = w ∧ (updateUsed now updates r w).1.Used = r.Used ∧
      (updateUsed now updates r w).1.UsedDate = r.UsedDate) := by
  unfold updateUsed
  cases asBool (updates "used") <;> simp

/-- The field updates leave the identity and the image path as they are, and write the used
flag with its usage date only for a boolean `used`; without a string `date` the purchase date
stays. -/
theorem applyUpdates_fields (parseDate : String → Option Time) (now : Time)
    (updates : String → Option JSONValue) (receipt : Receipt) :
    (applyUpdates parseDate now updates receipt).1.ID = receipt.ID ∧
    (applyUpdates parseDate now updates receipt).1.ImagePath = receipt.ImagePath ∧
    (∀ b, asBool (updates "used") = some b →
      (applyUpdates parseDate now updates receipt).2 = b ∧
      (applyUpdates parseDate now updates receipt).1.Used = b ∧
      (applyUpdates parseDate now updates receipt).1.UsedDate
        = if b then some now else none) ∧
    (asBool (updates "used") = none →
      (applyUpdates parseDate now updates receipt).2 = receipt.Used ∧
      (applyUpdates parseDate now updates receipt).1.Used = receipt.Used ∧
      (applyUpdates parseDate now updates receipt).1.UsedDate = receipt.UsedDate) ∧
    (asString (updates "date") = none →
      (applyUpdates parseDate now updates receipt).1.Date = receipt.Date) := by
  unfold applyUpdates
  simp only
  obtain ⟨a1, a2, a3, a4, a5⟩ := updateVendor_frame updates receipt
  obtain ⟨b1, b2, b3, b4, b5⟩ := updateTotalAmount_frame updates (updateVendor updates receipt)
  obtain ⟨c1, c2, c3, c4, c5⟩ := updateDate_frame parseDate updates
    (updateTotalAmount updates (updateVendor updates receipt))
  obtain ⟨d1, d2, d3, d4, d5⟩ := updateHSAQualified_frame updates
    (updateDate parseDate updates (updateTotalAmount updates (updateVendor updates receipt)))
  obtain ⟨e1, e2, e3, e4, e5⟩ := updateHSAStatus_frame updates (updateHSAQualified updates
    (updateDate parseDate updates (updateTotalAmount updates (updateVendor updates receipt))))
  obtain ⟨f1, f2, f3, f4, f5⟩ := updateUsed_frame now updates (updateHSAStatus updates
    (updateHSAQualified updates (updateDate parseDate updates
      (updateTotalAmount updates (updateVendor updates receipt))))) receipt.Used
  obtain ⟨g1, g2, g3, g4, g5⟩ := updateUseReason_frame updates (updateUsed now updates
    (updateHSAStatus updates (updateHSAQualified updates (updateDate parseDate updates
      (updateTotalAmount updates (updateVendor updates receipt))))) receipt.Used).1
  refine ⟨?_, ?_, ?_, ?_, ?_⟩
  · rw [g1, f1, e1, d1, c1, b1, a1]
  · rw [g2, f2, e2, d2, c2, b2, a2]
  · intro b hb
    obtain ⟨h1, h2, h3⟩ := f4 b hb
    exact ⟨h1, by rw [g3, h2], by rw [g4, h3]⟩
  · intro hb
    obtain ⟨h1, h2, h3⟩ := f5 hb
    exact ⟨h1, by rw [g3, h2, e3, d3, c3, b3, a3], by rw [g4, h3, e4, d4, c4, b4, a4]⟩
  · intro hd
    rw [g5, f3, e5, d5, c5 hd, b5, a5]

/-- The file move changes no field of the receipt but the image path. -/
theorem relocateOnToggle_frame {σ H : Type} (fs : FileSystem σ H) (ReceiptDir : String)
    (now : Time) (wasUsed willBeUsed : Bool) (receipt : Receipt) (s : σ) :
    ∃ p : String, (relocateOnToggle fs ReceiptDir now wasUsed willBeUsed receipt s).1
      = { receipt with ImagePath := p } := by
  unfold relocateOnToggle
  split_ifs
  · simp only
    split
    · exact ⟨receipt.ImagePath, rfl⟩
    · exact ⟨_, rfl⟩
  · exact ⟨receipt.ImagePath, rfl⟩

/-- The file move when the used status changes and the move succeeds: the receipt takes the
canonical path of its new status. -/
theorem relocateOnToggle_moved {σ H : Type} (fs : FileSystem σ H) (ReceiptDir : String)
    (now : Time) (wasUsed willBeUsed : Bool) (receipt : Receipt) (s : σ)
    (hchg : wasUsed ≠ willBeUsed) (hpath : receipt.ImagePath ≠ "")
    (hok : (moveReceiptFile fs receipt.ImagePath ReceiptDir (fileYear now willBeUsed receipt)
      (Base receipt.ImagePath) willBeUsed s).1.2 = none) :
    relocateOnToggle fs ReceiptDir now wasUsed willBeUsed receipt s
      = ({ receipt with
            ImagePath := getReceiptFilePath ReceiptDir (fileYear now willBeUsed receipt)
              (Base receipt.ImagePath) willBeUsed },
          (moveReceiptFile fs receipt.ImagePath ReceiptDir (fileYear now willBeUsed receipt)
            (Base receipt.ImagePath) willBeUsed s).2) := by
  have hp := moveReceiptFile_ok_path fs receipt.ImagePath ReceiptDir
    (fileYear now willBeUsed receipt) (Base receipt.ImagePath) willBeUsed s hok
  unfold relocateOnToggle
  rw [if_pos ⟨hchg, hpath⟩]
  simp only
  split
  · rename_i heq
    rw [heq] at hok
    simp at hok
  · rename_i heq
    rw [heq] at hp
    simp only at hp
    rw [hp, heq]

/-- The file move when the move fails: the error is dropped and the receipt is unchanged. -/
theorem relocateOnToggle_failed {σ H : Type} (fs : FileSystem σ H) (ReceiptDir : String)
    (now : Time) (wasUsed willBeUsed : Bool) (receipt : Receipt) (s : σ)
    (hchg : wasUsed ≠ willBeUsed) (hpath : receipt.ImagePath ≠ "")
    (hfail : (moveReceiptFile fs receipt.ImagePath ReceiptDir (fileYear now willBeUsed receipt)
      (Base receipt.ImagePath) willBeUsed s).1.2 ≠ none) :
    relocateOnToggle fs ReceiptDir now wasUsed willBeUsed receipt s
      = (receipt,
          (moveReceiptFile fs receipt.ImagePath ReceiptDir (fileYear now willBeUsed receipt)
            (Base receipt.ImagePath) willBeUsed s).2) := by
  unfold relocateOnToggle
  rw [if_pos ⟨hchg, hpath⟩]
  simp only
  split
  · rename_i heq
    rw [heq]
  · rename_i heq
    rw [heq] at hfail
    simp at hfail

theorem GetReceiptByID_ID (db : Database) (id : Int) (receipt : Receipt)
    (h : db.GetReceiptByID id = some receipt) : receipt.ID = id ∧ receipt ∈ db.rows := by
  unfold Database.GetReceiptByID at h
  have h1 := List.find?_some h
  exact ⟨by simpa using h1, List.mem_of_find?_eq_some h⟩

theorem find?_map_update (id : Int) (f : Receipt → Receipt) (hf : ∀ r, (f r).ID = r.ID) :
    ∀ (rows : List Receipt) (receipt : Receipt),
      rows.find? (fun r => r.ID == id) = some receipt →
      (rows.map (fun r => if r.ID = id then f r else r)).find? (fun r => r.ID == id)
        = some (f receipt) := by
  intro rows
  induction rows with
  | nil => intro receipt h; simp at h
  | cons r rest ih =>
    intro receipt h
    by_cases hr : r.ID = id
    · have hb : (r.ID == id) = true := by simpa using hr
      rw [List.find?_cons, hb] at h
      simp only [Option.some.injEq] at h
      subst h
      have hb2 : ((f r).ID == id) = true := by rw [hf]; exact hb
      rw [List.map_cons, if_pos hr, List.find?_cons, hb2]
    · have hb : (r.ID == id) = false := by simpa using hr
      rw [List.find?_cons, hb] at h
      rw [List.map_cons, if_neg hr, List.find?_cons, hb]
      exact ih receipt h

/-- Reading a receipt back after `UpdateReceipt`: the row read before, with the nine written
columns taken from the receipt that was written. -/
theorem GetReceiptByID_UpdateReceipt (db : Database) (id : Int) (receipt rec : Receipt)
    (h : db.GetReceiptByID id = some receipt) (hid : rec.ID = id) :
    (db.UpdateReceipt rec).GetReceiptByID id
      = some { receipt with
          Vendor := rec.Vendor, TotalAmount := rec.TotalAmount, Date := rec.Date,
          HSAQualified := rec.HSAQualified, HSAStatus := rec.HSAStatus,
          Used := rec.Used, UsedDate := rec.UsedDate, UseReason := rec.UseReason,
          ImagePath := rec.ImagePath } := by
  unfold Database.GetReceiptByID Database.UpdateReceipt
  simp only [hid]
  exact find?_map_update id
    (fun r => { r with
      Vendor := rec.Vendor, TotalAmount := rec.TotalAmount, Date := rec.Date,
      HSAQualified := rec.HSAQualified, HSAStatus := rec.HSAStatus,
      Used := rec.Used, UsedDate := rec.UsedDate, UseReason := rec.UseReason,
      ImagePath := rec.ImagePath })
    (fun _ => rfl) db.rows receipt h

theorem UpdateReceiptHandler_eq {σ H : Type} (fs : FileSystem σ H)
    (parseDate : String → Option Time) (ReceiptDir : String) (now1 now2 : Time)
    (db : Database) (s : σ) (id : Int) (updates : String → Option JSONValue)
    (receipt : Receipt) (hget : db.GetReceiptByID id = some receipt) :
    UpdateReceiptHandler fs parseDate ReceiptDir now1 now2 db s id (some updates)
      = (Response.receiptJSON (relocateOnToggle fs ReceiptDir now2 receipt.Used
            (applyUpdates parseDate now1 updates receipt).2
            (applyUpdates parseDate now1 updates receipt).1 s).1,
          db.UpdateReceipt (relocateOnToggle fs ReceiptDir now2 receipt.Used
            (applyUpdates parseDate now1 updates receipt).2
            (applyUpdates parseDate now1 updates receipt).1 s).1,
          (relocateOnToggle fs ReceiptDir now2 receipt.Used
            (applyUpdates parseDate now1 updates receipt).2
            (applyUpdates parseDate now1 updates receipt).1 s).2) := by
  unfold UpdateReceiptHandler
  rw [hget]

theorem ImagePath_ne_empty_of_Base (path f : String) (hbase : Base path = f)
    (hname : isElem f.data) : path ≠ "" := by
  intro h
  rw [h] at hbase
  have : f = "." := by rw [← hbase]; rfl
  rw [this] at hname
  exact hname.2.2.1 rfl

/-- One usage toggle whose file move succeeds: the stored receipt takes the new used flag, the
usage date and the canonical path of the new status, and keeps the purchase date that the
field updates give it. -/
theorem toggle_step {σ H : Type} (fs : FileSystem σ H) (parseDate : String → Option Time)
    (root : String) (now1 now2 : Time) (db : Database) (s : σ) (id : Int)
    (updates : String → Option JSONValue) (receipt : Receipt) (b : Bool) (f : String)
    (yr : Int)
    (hget : db.GetReceiptByID id = some receipt)
    (hb : asBool (updates "used") = some b) (hchg : receipt.Used ≠ b)
    (hbase : Base receipt.ImagePath = f) (hname : isElem f.data)
    (hyr : fileYear now2 b (applyUpdates parseDate now1 updates receipt).1 = yr)
    (hmove : (moveReceiptFile fs receipt.ImagePath root yr f b s).1.2 = none) :
    ∃ row : Receipt,
      (UpdateReceiptHandler fs parseDate root now1 now2 db s id (some updates)).2.1.GetReceiptByID id
        = some row ∧
      row.Used = b ∧ row.UsedDate = (if b then some now1 else none) ∧
      row.ImagePath = getReceiptFilePath root yr f b ∧
      row.Date = (applyUpdates parseDate now1 updates receipt).1.Date ∧
      (UpdateReceiptHandler fs parseDate root now1 now2 db s id (some updates)).2.2
        = (moveReceiptFile fs receipt.ImagePath root yr f b s).2 := by
  obtain ⟨hID, hpath, hused, _, _⟩ := applyUpdates_fields parseDate now1 updates receipt
  obtain ⟨hw, hu, hud⟩ := hused b hb
  have hne : (applyUpdates parseDate now1 updates receipt).1.ImagePath ≠ "" := by
    rw [hpath]
    exact ImagePath_ne_empty_of_Base _ f hbase hname
  have hmv := relocateOnToggle_moved fs root now2 receipt.Used b
    (applyUpdates parseDate now1 updates receipt).1 s hchg hne
    (by rw [hyr, hpath, hbase]; exact hmove)
  rw [hyr, hpath, hbase] at hmv
  rw [UpdateReceiptHandler_eq fs parseDate root now1 now2 db s id updates receipt hget, hw, hmv]
  refine ⟨_, GetReceiptByID_UpdateReceipt db id receipt _ hget ?_, ?_, ?_, rfl, rfl, rfl⟩
  · simp only
    rw [hID]
    exact (GetReceiptByID_ID db id receipt hget).1
  · exact hu
  · exact hud

/-- C7 (usage-toggle round trip): for a stored unused receipt whose image path has the base
name `f`, an ordinary file name, and whose purchase date lies in year `Y`, a request with
`used = true` followed by a request with `used = false`, neither editing the purchase date and
both file moves succeeding, leaves the stored `image_path` equal to the canonical unused path
of `root`, `Y` and `f`, whatever the clock readings of the usage date; for a clean root other
than `.` without trailing separator this path reads `root/unused/Y/f`. -/
theorem usage_toggle_round_trip {σ H : Type} (fs : FileSystem σ H)
    (parseDate : String → Option Time) (root : String) (now1 now2 now3 now4 : Time)
    (db : Database) (s : σ) (id : Int) (u1 u2 : String → Option JSONValue)
    (receipt : Receipt) (f : String)
    (hget : db.GetReceiptByID id = some receipt) (hunused : receipt.Used = false)
    (hbase : Base receipt.ImagePath = f) (hname : isElem f.data)
    (hu1 : asBool (u1 "used") = some true) (hu2 : asBool (u2 "used") = some false)
    (hd1 : asString (u1 "date") = none) (hd2 : asString (u2 "date") = none)
    (hmove1 : (moveReceiptFile fs receipt.ImagePath root now1.Year f true s).1.2 = none)
    (hmove2 : (moveReceiptFile fs (getReceiptFilePath root now1.Year f true) root
      receipt.Date.Year f false
      (moveReceiptFile fs receipt.ImagePath root now1.Year f true s).2).1.2 = none) :
    ∃ mid final : Receipt,
      (UpdateReceiptHandler fs parseDate root now1 now2 db s id (some u1)).2.1.GetReceiptByID id
        = some mid ∧
      mid.Used = true ∧ mid.UsedDate = some now1 ∧
      mid.ImagePath = getReceiptFilePath root now1.Year f true ∧
      (UpdateReceiptHandler fs parseDate root now3 now4
          (UpdateReceiptHandler fs parseDate root now1 now2 db s id (some u1)).2.1
          (UpdateReceiptHandler fs parseDate root now1 now2 db s id (some u1)).2.2
          id (some u2)).2.1.GetReceiptByID id = some final ∧
      final.Used = false ∧ final.UsedDate = none ∧
      final.ImagePath = getReceiptFilePath root receipt.Date.Year f false ∧
      (Clean root = root → root ≠ "." → root.data.getLast? ≠ some '/' →
        final.ImagePath = root ++ "/" ++ "unused" ++ "/" ++ Sprintf_d receipt.Date.Year
          ++ "/" ++ f) := by
  have hy1 : fileYear now2 true (applyUpdates parseDate now1 u1 receipt).1 = now1.Year := by
    have := ((applyUpdates_fields parseDate now1 u1 receipt).2.2.1 true hu1).2.2
    unfold fileYear
    rw [this]
    rfl
  obtain ⟨mid, hmid, hmu, hmud, hmp, hmd, hms⟩ := toggle_step fs parseDate root now1 now2 db s id
    u1 receipt true f now1.Year hget hu1 (by rw [hunused]; decide) hbase hname hy1 hmove1
  have hdate1 : mid.Date = receipt.Date := by
    rw [hmd]
    exact (applyUpdates_fields parseDate now1 u1 receipt).2.2.2.2 hd1
  have hy2 : fileYear now4 false (applyUpdates parseDate now3 u2 mid).1 = receipt.Date.Year := by
    have := (applyUpdates_fields parseDate now3 u2 mid).2.2.2.2 hd2
    unfold fileYear
    rw [this, hdate1]
  have hbase2 : Base mid.ImagePath = f := by
    rw [hmp]
    exact Base_getReceiptFilePath root now1.Year f true hname
  obtain ⟨final, hfin, hfu, hfud, hfp, _, _⟩ := toggle_step fs parseDate root now3 now4
    (UpdateReceiptHandler fs parseDate root now1 now2 db s id (some u1)).2.1
    (UpdateReceiptHandler fs parseDate root now1 now2 db s id (some u1)).2.2 id
    u2 mid false f receipt.Date.Year hmid hu2 (by rw [hmu]; decide) hbase2 hname hy2
    (by rw [hms, hmp]; exact hmove2)
  refine ⟨mid, final, hmid, hmu, by simpa using hmud, hmp, hfin, hfu, by simpa using hfud,
    hfp, ?_⟩
  intro hclean hdot hsep
  rw [hfp]
  exact getReceiptFilePath_of_stablePath root receipt.Date.Year f false
    (stablePath_of_clean _ (congrArg String.data hclean) (fun h => hdot (String.ext h)) hsep)
    hname

/-- C7, on the example store and file system: the receipt of 2023 is marked used in 2024 and
unused again in 2025; its stored path is back in the unused area of 2023. -/
theorem usage_toggle_round_trip_witness :
    ∃ final : Receipt,
      (UpdateReceiptHandler (journalFS noFaults) (fun _ => none) "/data/hsa" clock2025 clock2025
          (UpdateReceiptHandler (journalFS noFaults) (fun _ => none) "/data/hsa" clock2024
            clock2024 exampleDB [] 1 (some bodyUsed)).2.1
          (UpdateReceiptHandler (journalFS noFaults) (fun _ => none) "/data/hsa" clock2024
            clock2024 exampleDB [] 1 (some bodyUsed)).2.2
          1 (some bodyUnused)).2.1.GetReceiptByID 1 = some final ∧
      final.ImagePath = "/data/hsa/unused/2023/1700000000_receipt.jpg" := by
  obtain ⟨_, final, _, _, _, _, hfin, _, _, hp, _⟩ :=
    usage_toggle_round_trip (journalFS noFaults) (fun _ => none) "/data/hsa" clock2024 clock2024
      clock2025 clock2025 exampleDB [] 1 bodyUsed bodyUnused exampleReceipt
      "1700000000_receipt.jpg" rfl rfl (by decide) (by decide) rfl rfl rfl rfl
      (by decide) (by decide)
  exact ⟨final, hfin, by rw [hp]; decide⟩

/-- C9 as stated fails: on the example store, with a file system that cannot create the
destination directory, the move fails, and yet the stored receipt takes the new used flag and
usage date (keeping its old path) and the request answers 200. -/
theorem failed_move_still_updates_record :
    (moveReceiptFile (journalFS mkdirFails) exampleReceipt.ImagePath "/data/hsa" 2024
      "1700000000_receipt.jpg" true []).1 = ("", some
        "failed to create destination directory: mkdir refused") ∧
    exampleReceipt.Used = false ∧ exampleReceipt.UsedDate = none ∧
    ((UpdateReceiptHandler (journalFS mkdirFails) (fun _ => none) "/data/hsa" clock2024
        clock2024 exampleDB [] 1 (some bodyUsed)).2.1.GetReceiptByID 1).map
        (fun r => (r.Used, r.UsedDate, r.ImagePath))
      = some (true, some clock2024, "/data/hsa/unused/2023/1700000000_receipt.jpg") ∧
    (UpdateReceiptHandler (journalFS mkdirFails) (fun _ => none) "/data/hsa" clock2024
        clock2024 exampleDB [] 1 (some bodyUsed)).1.status = 200 := by
  decide

/-- C9, amended (a failed usage toggle is not atomic): for every stored receipt with a
non-empty image path and every request that changes the used flag, if the file move fails,
the failure is only logged: the request answers 200 with the updated receipt, the stored
receipt takes the new used flag and its usage date, and its image path stays the old one. -/
theorem failed_move_is_only_logged {σ H : Type} (fs : FileSystem σ H)
    (parseDate : String → Option Time) (root : String) (now1 now2 : Time) (db : Database)
    (s : σ) (id : Int) (updates : String → Option JSONValue) (receipt : Receipt) (b : Bool)
    (hget : db.GetReceiptByID id = some receipt)
    (hb : asBool (updates "used") = some b) (hchg : receipt.Used ≠ b)
    (hpath : receipt.ImagePath ≠ "")
    (hfail : (moveReceiptFile fs receipt.ImagePath root
      (fileYear now2 b (applyUpdates parseDate now1 updates receipt).1)
      (Base receipt.ImagePath) b s).1.2 ≠ none) :
    ∃ row : Receipt,
      (UpdateReceiptHandler fs parseDate root now1 now2 db s id (some updates)).2.1.GetReceiptByID id
        = some row ∧
      row.Used = b ∧ row.UsedDate = (if b then some now1 else none) ∧
      row.ImagePath = receipt.ImagePath ∧
      (UpdateReceiptHandler fs parseDate root now1 now2 db s id (some updates)).1
        = Response.receiptJSON (applyUpdates parseDate now1 updates receipt).1 ∧
      (UpdateReceiptHandler fs parseDate root now1 now2 db s id (some updates)).1.status
        = 200 := by
  obtain ⟨hID, hp, hused, _, _⟩ := applyUpdates_fields parseDate now1 updates receipt
  obtain ⟨hw, hu, hud⟩ := hused b hb
  have hmv := relocateOnToggle_failed fs root now2 receipt.Used b
    (applyUpdates parseDate now1 updates receipt).1 s hchg (by rw [hp]; exact hpath)
    (by rw [hp]; exact hfail)
  rw [UpdateReceiptHandler_eq fs parseDate root now1 now2 db s id updates receipt hget, hw, hmv]
  refine ⟨_, GetReceiptByID_UpdateReceipt db id receipt _ hget ?_, hu, hud, hp, rfl, rfl⟩
  rw [hID]
  exact (GetReceiptByID_ID db id receipt hget).1

/-- C9, amended, on the example store with a file system that cannot create directories. -/
theorem failed_move_is_only_logged_witness :
    ∃ row : Receipt,
      (UpdateReceiptHandler (journalFS mkdirFails) (fun _ => none) "/data/hsa" clock2024
        clock2024 exampleDB [] 1 (some bodyUsed)).2.1.GetReceiptByID 1 = some row ∧
      row.Used = true ∧ row.ImagePath = "/data/hsa/unused/2023/1700000000_receipt.jpg" := by
  obtain ⟨row, h1, h2, _, h4, _, _⟩ :=
    failed_move_is_only_logged (journalFS mkdirFails) (fun _ => none) "/data/hsa" clock2024
      clock2024 exampleDB [] 1 bodyUsed exampleReceipt true rfl rfl (by decide) (by decide)
      (by decide)
  exact ⟨row, h1, h2, h4⟩

/-! ## The usage-date invariant -/

theorem applyUpdates_usageDateInvariant (parseDate : String → Option Time) (now : Time)
    (updates : String → Option JSONValue) (receipt : Receipt)
    (h : usageDateInvariant receipt) :
    usageDateInvariant (applyUpdates parseDate now updates receipt).1 := by
  obtain ⟨_, _, hsome, hnone, _⟩ := applyUpdates_fields parseDate now updates receipt
  unfold usageDateInvariant at *
  cases hb : asBool (updates "used") with
  | none =>
    obtain ⟨_, hu, hud⟩ := hnone hb
    rw [hu, hud]
    exact h
  | some b =>
    obtain ⟨_, hu, hud⟩ := hsome b hb
    rw [hu, hud]
    cases b <;> simp

theorem UpdateReceipt_usageDateInvariant (db : Database) (rec : Receipt)
    (hdb : ∀ r ∈ db.rows, usageDateInvariant r) (hrec : usageDateInvariant rec) :
    ∀ r ∈ (db.UpdateReceipt rec).rows, usageDateInvariant r := by
  intro r hr
  unfold Database.UpdateReceipt at hr
  simp only [List.mem_map] at hr
  obtain ⟨r0, hr0, rfl⟩ := hr
  split_ifs
  · exact hrec
  · exact hdb r0 hr0

/-- The store after `UploadHandler`: unchanged, or extended by the row of the receipt built
from an answer of the OCR service, which is then the receipt of the response. -/
theorem UploadHandler_store {σ H : Type} (fs : FileSystem σ H) (env : UploadEnv σ)
    (db : Database) (s : σ) (req : UploadRequest) :
    ((UploadHandler fs env db s req).2.1 = db ∧
      ∀ r, (UploadHandler fs env db s req).1 ≠ Response.uploaded r) ∨
    ∃ (ocrResult : OCRResponse) (savePath imageHash : String),
      (UploadHandler fs env db s req).2.1
        = (db.CreateReceipt (buildReceipt env ocrResult savePath imageHash) env.nowInsert).2 ∧
      (UploadHandler fs env db s req).1 = Response.uploaded
        (db.CreateReceipt (buildReceipt env ocrResult savePath imageHash) env.nowInsert).1 := by
  unfold UploadHandler
  repeat' first | split | (dsimp only; split)
  all_goals first
    | exact Or.inl ⟨rfl, fun r h => by simp at h⟩
    | exact Or.inr ⟨_, _, _, rfl, rfl⟩

/-- C10 (usage-date invariant): "used implies a usage date, unused implies none" holds for
the receipt that `UploadHandler` builds, for its stored row and for the receipt of its
response; `UploadHandler`, `UpdateReceiptHandler` with any request, and `MarkUsed` keep it on
every row of the store, and the receipt answered by `UpdateReceiptHandler` has it. -/
theorem usage_date_invariant :
    (∀ (σ : Type) (env : UploadEnv σ) (ocrResult : OCRResponse) (savePath imageHash : String),
      usageDateInvariant (buildReceipt env ocrResult savePath imageHash)) ∧
    (∀ (σ H : Type) (fs : FileSystem σ H) (env : UploadEnv σ) (db : Database) (s : σ)
      (req : UploadRequest), (∀ r ∈ db.rows, usageDateInvariant r) →
      (∀ r ∈ (UploadHandler fs env db s req).2.1.rows, usageDateInvariant r) ∧
      (∀ r, (UploadHandler fs env db s req).1 = Response.uploaded r → usageDateInvariant r)) ∧
    (∀ (σ H : Type) (fs : FileSystem σ H) (parseDate : String → Option Time)
      (ReceiptDir : String) (now1 now2 : Time) (db : Database) (s : σ) (id : Int)
      (body : Option (String → Option JSONValue)), (∀ r ∈ db.rows, usageDateInvariant r) →
      (∀ r ∈ (UpdateReceiptHandler fs parseDate ReceiptDir now1 now2 db s id body).2.1.rows,
        usageDateInvariant r) ∧
      (∀ r, (UpdateReceiptHandler fs parseDate ReceiptDir now1 now2 db s id body).1
        = Response.receiptJSON r → usageDateInvariant r)) ∧
    (∀ (db : Database) (receipts : List Receipt) (now : Time),
      (∀ r ∈ db.rows, usageDateInvariant r) →
      ∀ r ∈ (db.MarkUsed receipts now).rows, usageDateInvariant r) := by
  have hbuild : ∀ (σ : Type) (env : UploadEnv σ) (ocrResult : OCRResponse)
      (savePath imageHash : String),
      usageDateInvariant (buildReceipt env ocrResult savePath imageHash) := by
    intro σ env ocrResult savePath imageHash
    unfold usageDateInvariant buildReceipt
    simp
  refine ⟨hbuild, ?_, ?_, ?_⟩
  · intro σ H fs env db s req hdb
    rcases UploadHandler_store fs env db s req with ⟨h1, h2⟩ | ⟨ocr, p, h, h1, h2⟩
    · rw [h1]
      exact ⟨hdb, fun r hr => absurd hr (h2 r)⟩
    · rw [h1, h2]
      have hb := hbuild σ env ocr p h
      constructor
      · intro r hr
        unfold Database.CreateReceipt at hr
        simp only [List.mem_append, List.mem_singleton] at hr
        rcases hr with hr | rfl
        · exact hdb r hr
        · unfold usageDateInvariant buildReceipt
          simp
      · intro r hr
        simp only [Response.uploaded.injEq] at hr
        subst hr
        unfold usageDateInvariant at *
        exact hb
  · intro σ H fs parseDate ReceiptDir now1 now2 db s id body hdb
    cases hget : db.GetReceiptByID id with
    | none =>
      have : UpdateReceiptHandler fs parseDate ReceiptDir now1 now2 db s id body
          = (Response.httpError 404 "Receipt not found", db, s) := by
        unfold UpdateReceiptHandler
        rw [hget]
      rw [this]
      exact ⟨hdb, fun r hr => by simp at hr⟩
    | some receipt =>
      cases body with
      | none =>
        have : UpdateReceiptHandler fs parseDate ReceiptDir now1 now2 db s id none
            = (Response.httpError 400 "Invalid request body", db, s) := by
          unfold UpdateReceiptHandler
          rw [hget]
        rw [this]
        exact ⟨hdb, fun r hr => by simp at hr⟩
      | some updates =>
        rw [UpdateReceiptHandler_eq fs parseDate ReceiptDir now1 now2 db s id updates receipt
          hget]
        have hrec := applyUpdates_usageDateInvariant parseDate now1 updates receipt
          (hdb receipt (GetReceiptByID_ID db id receipt hget).2)
        obtain ⟨p, hp⟩ := relocateOnToggle_frame fs ReceiptDir now2 receipt.Used
          (applyUpdates parseDate now1 updates receipt).2
          (applyUpdates parseDate now1 updates receipt).1 s
        have hmoved : usageDateInvariant (relocateOnToggle fs ReceiptDir now2 receipt.Used
            (applyUpdates parseDate now1 updates receipt).2
            (applyUpdates parseDate now1 updates receipt).1 s).1 := by
          rw [hp]
          exact hrec
        refine ⟨UpdateReceipt_usageDateInvariant db _ hdb hmoved, ?_⟩
        intro r hr
        simp only [Response.receiptJSON.injEq] at hr
        rw [← hr]
        exact hmoved
  · intro db receipts now hdb r hr
    unfold Database.MarkUsed at hr
    simp only [List.mem_map] at hr
    obtain ⟨r0, hr0, rfl⟩ := hr
    split_ifs
    · unfold usageDateInvariant
      simp
    · exact hdb r0 hr0

/-- C10, on the example store: after the request `{"used": true}` every stored receipt has
the invariant, and the stored receipt is used with a usage date. -/
theorem usage_date_invariant_witness :
    (∀ r ∈ (UpdateReceiptHandler (journalFS noFaults) (fun _ => none) "/data/hsa" clock2024
        clock2024 exampleDB [] 1 (some bodyUsed)).2.1.rows, usageDateInvariant r) ∧
    ((UpdateReceiptHandler (journalFS noFaults) (fun _ => none) "/data/hsa" clock2024
        clock2024 exampleDB [] 1 (some bodyUsed)).2.1.GetReceiptByID 1).map
        (fun r => (r.Used, r.UsedDate)) = some (true, some clock2024) :=
  ⟨(usage_date_invariant.2.2.1 (List String) String (journalFS noFaults) (fun _ => none)
      "/data/hsa" clock2024 clock2024 exampleDB [] 1 (some bodyUsed) (by decide)).1,
    by decide⟩

/-! ## No pruning, non-positive targets and zero amounts -/

theorem outerLoop_append (target : ℚ) (l1 l2 : List ℚ) :
    ∀ (i : Nat) (st : state × List state),
      outerLoop target (l1 ++ l2) i st
        = outerLoop target l2 (i + l1.length) (outerLoop target l1 i st) := by
  induction l1 with
  | nil => intro i st; rfl
  | cons a l1 ih =>
    intro i st
    obtain ⟨best, dp⟩ := st
    show outerLoop target (l1 ++ l2) (i + 1) (innerLoop target a i dp (best, dp))
      = outerLoop target l2 (i + (l1.length + 1))
          (outerLoop target l1 (i + 1) (innerLoop target a i dp (best, dp)))
    rw [ih]
    congr 1
    omega

theorem sumAt_take (amounts : List ℚ) (k : Nat) (S : List Nat) (hS : ∀ i ∈ S, i < k) :
    sumAt (amounts.take k) S = sumAt amounts S := by
  unfold sumAt
  congr 1
  apply List.map_congr_left
  intro i hi
  simp only [List.getD_eq_getElem?_getD, List.getElem?_take_of_lt (hS i hi)]

theorem SubsetSumDp_eq (amounts : List ℚ) (target : ℚ) :
    SubsetSumDp amounts target = allStates amounts amounts.length := by
  obtain ⟨V, _, hrun⟩ := SubsetSumRun_eq amounts target
  rw [SubsetSumDp, hrun]

theorem allStates_indices (amounts : List ℚ) (k : Nat) :
    (allStates amounts k).map (fun s => s.indices) = (List.range k).sublists := by
  unfold allStates
  rw [List.map_map]
  have : ((fun s : state => s.indices) ∘ stateOf amounts) = id := by
    funext S
    rfl
  rw [this, List.map_id]

/-- C14 (no pruning): for every amounts list, every target and every `k` up to the length of
the list, the run on all amounts continues the run on the first `k` amounts, and the state
collection after the first `k` amounts has exactly `2^k` entries, whose index lists are the
sublists of `0..k-1`, each once, each entry's sum being the sum of the amounts at its indices;
after all amounts the collection has `2^n` entries and holds the state of every subset of the
positions, whatever its sum and the target. -/
theorem SubsetSum_no_pruning (amounts : List ℚ) (target : ℚ) (k : Nat)
    (hk : k ≤ amounts.length) :
    SubsetSumRun amounts target
      = outerLoop target (amounts.drop k) k (SubsetSumRun (amounts.take k) target) ∧
    (SubsetSumDp (amounts.take k) target).length = 2 ^ k ∧
    (SubsetSumDp (amounts.take k) target).map (fun s => s.indices) = (List.range k).sublists ∧
    ((SubsetSumDp (amounts.take k) target).map (fun s => s.indices)).Nodup ∧
    (∀ S : List Nat, S ∈ (SubsetSumDp (amounts.take k) target).map (fun s => s.indices) ↔
      S.Sublist (List.range k)) ∧
    (∀ s ∈ SubsetSumDp (amounts.take k) target, s.sum = sumAt amounts s.indices) ∧
    (SubsetSumDp amounts target).length = 2 ^ amounts.length ∧
    (∀ S : List Nat, S.Sublist (List.range amounts.length) →
      (⟨sumAt amounts S, S⟩ : state) ∈ SubsetSumDp amounts target) := by
  have hlen : (amounts.take k).length = k := by
    rw [List.length_take]
    exact Nat.min_eq_left hk
  have hdp : SubsetSumDp (amounts.take k) target = allStates (amounts.take k) k := by
    rw [SubsetSumDp_eq, hlen]
  have hidx := allStates_indices (amounts.take k) k
  refine ⟨?_, ?_, ?_, ?_, ?_, ?_, ?_, ?_⟩
  · have := outerLoop_append target (amounts.take k) (amounts.drop k) 0
      (⟨0, []⟩, [⟨0, []⟩])
    rw [List.take_append_drop, hlen, Nat.zero_add] at this
    exact this
  · rw [hdp, allStates, List.length_map, List.length_sublists, List.length_range]
  · rw [hdp, hidx]
  · rw [hdp, hidx]
    exact List.nodup_sublists.2 (List.nodup_range k)
  · intro S
    rw [hdp, hidx]
    exact List.mem_sublists
  · intro s hs
    rw [hdp] at hs
    obtain ⟨S, hS, rfl⟩ := (mem_allStates _ _ _).1 hs
    exact sumAt_take amounts k S (lt_of_mem_sublist_range k S hS)
  · rw [SubsetSumDp_eq, allStates, List.length_map, List.length_sublists, List.length_range]
  · intro S hS
    rw [SubsetSumDp_eq]
    exact (mem_allStates _ _ _).2 ⟨S, hS, rfl⟩

/-- C14, at the amounts `[30, 40, 50]` with target `20`: after two amounts the collection has
four entries, and the state of `{0, 1}`, of sum 70 above the target, is one of them. -/
theorem SubsetSum_no_pruning_witness :
    (SubsetSumDp (([30, 40, 50] : List ℚ).take 2) 20).length = 2 ^ 2 ∧
    (SubsetSumDp (([30, 40, 50] : List ℚ).take 2) 20).map (fun s => s.indices)
      = [[], [0], [1], [0, 1]] ∧
    (⟨70, [0, 1]⟩ : state) ∈ SubsetSumDp (([30, 40, 50] : List ℚ).take 2) 20 := by
  have h := SubsetSum_no_pruning [30, 40, 50] 20 2 (by decide)
  refine ⟨h.2.1, h.2.2.1, ?_⟩
  simp [SubsetSumDp, SubsetSumRun, outerLoop, innerLoop]
  norm_num

/-- C15: for every amounts list, of any sign, and every target `≤ 0`, `SubsetSum` returns the
empty selection, so `DeductHandler` answers the empty list for every requested amount `≤ 0`;
and whenever `SubsetSum` returns a non-empty index list, the sum of the selected amounts is
strictly positive. -/
theorem SubsetSum_nonpositive_target :
    (∀ (amounts : List ℚ) (target : ℚ), target ≤ 0 → SubsetSum amounts target = []) ∧
    (∀ (receipts : List Receipt) (amount : ℚ), amount ≤ 0 →
      DeductHandler receipts amount = some []) ∧
    (∀ (amounts : List ℚ) (target : ℚ), SubsetSum amounts target ≠ [] →
      0 < sumAt amounts (SubsetSum amounts target)) := by
  have hA : ∀ (amounts : List ℚ) (target : ℚ), target ≤ 0 → SubsetSum amounts target = [] := by
    intro amounts target ht
    obtain ⟨V, _, _, h⟩ := best_cases amounts target
    rcases h with ⟨h0, _⟩ | ⟨L1, c, L2, _, _, hle, hpos, _⟩
    · rw [SubsetSum, h0]
    · exact absurd (lt_of_lt_of_le hpos (le_trans hle ht)) (lt_irrefl _)
  refine ⟨hA, ?_, ?_⟩
  · intro receipts amount ht
    unfold DeductHandler
    rw [hA _ _ ht]
    rfl
  · intro amounts target hne
    obtain ⟨V, _, _, h⟩ := best_cases amounts target
    rw [← best_sum]
    rcases h with ⟨h0, _⟩ | ⟨L1, c, L2, _, hc, _, hpos, _⟩
    · exact absurd (by rw [SubsetSum, h0]) hne
    · rw [hc]
      exact hpos

/-- C15, at the amounts `[5, -3, 8]`: the target `-2` gives the empty selection, and the
target `4` gives `[0, 1]`, of sum 2. -/
theorem SubsetSum_nonpositive_target_witness :
    SubsetSum [5, -3, 8] (-2) = [] ∧ SubsetSum [5, -3, 8] 4 = [0, 1] ∧
    0 < sumAt [5, -3, 8] (SubsetSum [5, -3, 8] 4) := by
  have h : SubsetSum [5, -3, 8] 4 = [0, 1] := by
    simp [SubsetSum, SubsetSumRun, outerLoop, innerLoop]
    norm_num
  exact ⟨SubsetSum_nonpositive_target.1 [5, -3, 8] (-2) (by norm_num), h,
    SubsetSum_nonpositive_target.2.2 [5, -3, 8] 4 (by rw [h]; simp)⟩

theorem sumAt_erase (amounts : List ℚ) (S : List Nat) (i : Nat) (hi : i ∈ S) :
    amounts.getD i 0 + sumAt amounts (S.erase i) = sumAt amounts S :=
  List.sum_map_erase (fun j => amounts.getD j 0) hi

theorem code_erase (S : List Nat) (i : Nat) (hi : i ∈ S) :
    2 ^ i + code (S.erase i) = code S :=
  List.sum_map_erase (fun j => 2 ^ j) hi

/-- C16: for every amounts list and every target, no index returned by `SubsetSum` refers to
an amount equal to 0: without such an index the subset has the same sum and is visited
earlier.  Non-negativity of the other amounts is not needed. -/
theorem SubsetSum_never_selects_zero (amounts : List ℚ) (target : ℚ) :
    ∀ i ∈ SubsetSum amounts target, i < amounts.length ∧ amounts.getD i 0 ≠ 0 := by
  intro i hi
  have hsub := SubsetSum_sublist amounts target
  refine ⟨lt_of_mem_sublist_range _ _ hsub i hi, ?_⟩
  intro hzero
  have hne : (SubsetSumRun amounts target).1 ≠ ⟨0, []⟩ := by
    intro h
    rw [SubsetSum, h] at hi
    simp at hi
  obtain ⟨k, _, hk, hfirst⟩ := best_first amounts target (Or.inl hne)
  have hdp := SubsetSumDp_eq amounts target
  have hkc : code (SubsetSum amounts target) = k := by
    rw [hdp] at hk
    exact (allStates_getElem amounts _ k _ hk).1
  have hsub2 : ((SubsetSum amounts target).erase i).Sublist (List.range amounts.length) :=
    (List.erase_sublist i _).trans hsub
  have hpos := allStates_at_code amounts amounts.length _ hsub2
  rw [← hdp] at hpos
  have hlt : code ((SubsetSum amounts target).erase i) < k := by
    have := code_erase (SubsetSum amounts target) i hi
    have h2 : 0 < 2 ^ i := Nat.pow_pos (by decide)
    omega
  apply hfirst _ _ hlt hpos
  rw [best_sum]
  have := sumAt_erase amounts (SubsetSum amounts target) i hi
  rw [hzero, zero_add] at this
  exact this

/-- C16, at the amounts `[0, 5, 0]` with target `5`: only the index of the amount 5 is
returned. -/
theorem SubsetSum_never_selects_zero_witness :
    SubsetSum [0, 5, 0] 5 = [1] ∧
    ∀ i ∈ SubsetSum [0, 5, 0] 5, i < ([0, 5, 0] : List ℚ).length ∧
      ([0, 5, 0] : List ℚ).getD i 0 ≠ 0 := by
  refine ⟨?_, SubsetSum_never_selects_zero [0, 5, 0] 5⟩
  simp [SubsetSum, SubsetSumRun, outerLoop, innerLoop]
  norm_num

/-! ## The eligibility invariant -/

theorem buildReceipt_eligibility {σ : Type} (env : UploadEnv σ) (ocrResult : OCRResponse)
    (savePath imageHash : String) :
    eligibilityInvariant (buildReceipt env ocrResult savePath imageHash) := by
  unfold eligibilityInvariant buildReceipt
  simp

theorem updateHSAStatus_eligibility (updates : String → Option JSONValue) (r : Receipt)
    (h : (asString (updates "hsa_status")).isSome = true ∨ eligibilityInvariant r) :
    eligibilityInvariant (updateHSAStatus updates r) := by
  unfold updateHSAStatus
  cases hs : asString (updates "hsa_status") with
  | some st =>
    unfold eligibilityInvariant
    simp
  | none =>
    rcases h with h | h
    · rw [hs] at h; simp at h
    · exact h

theorem updateHSAQualified_eligibility (updates : String → Option JSONValue) (r : Receipt)
    (hq : asBool (updates "hsa_qualified") = none) (h : eligibilityInvariant r) :
    eligibilityInvariant (updateHSAQualified updates r) := by
  unfold updateHSAQualified
  rw [hq]
  exact h

theorem eligibility_frame (r r1 : Receipt) (h1 : r1.HSAQualified = r.HSAQualified)
    (h2 : r1.HSAStatus = r.HSAStatus) : eligibilityInvariant r1 ↔ eligibilityInvariant r := by
  unfold eligibilityInvariant
  rw [h1, h2]

/-- The part of the eligibility invariant that the code keeps: the receipt built by
`UploadHandler` has it, and the field updates keep it when the request carries a string
`hsa_status`, which re-derives the flag, or carries no boolean `hsa_qualified`. -/
theorem applyUpdates_eligibility (parseDate : String → Option Time) (now : Time)
    (updates : String → Option JSONValue) (receipt : Receipt)
    (h : (asString (updates "hsa_status")).isSome = true ∨
      (asBool (updates "hsa_qualified") = none ∧ eligibilityInvariant receipt)) :
    eligibilityInvariant (applyUpdates parseDate now updates receipt).1 := by
  unfold applyUpdates
  simp only
  have hv : eligibilityInvariant (updateVendor updates receipt) ↔ eligibilityInvariant receipt := by
    apply eligibility_frame <;> (unfold updateVendor; cases asString (updates "vendor") <;> rfl)
  have ha : eligibilityInvariant (updateTotalAmount updates (updateVendor updates receipt))
      ↔ eligibilityInvariant (updateVendor updates receipt) := by
    apply eligibility_frame <;>
      (unfold updateTotalAmount; cases asFloat64 (updates "total_amount") <;> rfl)
  have hd : eligibilityInvariant (updateDate parseDate updates
      (updateTotalAmount updates (updateVendor updates receipt)))
      ↔ eligibilityInvariant (updateTotalAmount updates (updateVendor updates receipt)) := by
    apply eligibility_frame <;>
      (unfold updateDate
       cases asString (updates "date") with
       | none => rfl
       | some ds => cases h : parseDate ds <;> simp [h])
  have h5 : eligibilityInvariant (updateHSAStatus updates (updateHSAQualified updates
      (updateDate parseDate updates (updateTotalAmount updates
        (updateVendor updates receipt))))) := by
    apply updateHSAStatus_eligibility
    rcases h with h | ⟨hq, hinv⟩
    · exact Or.inl h
    · exact Or.inr (updateHSAQualified_eligibility _ _ hq (hd.2 (ha.2 (hv.2 hinv))))
  have hu : ∀ (r : Receipt) (w : Bool),
      eligibilityInvariant (updateUsed now updates r w).1 ↔ eligibilityInvariant r := by
    intro r w
    apply eligibility_frame <;> (unfold updateUsed; cases asBool (updates "used") <;> rfl)
  have hr : ∀ r : Receipt,
      eligibilityInvariant (updateUseReason updates r) ↔ eligibilityInvariant r := by
    intro r
    apply eligibility_frame <;>
      (unfold updateUseReason; cases asString (updates "use_reason") <;> rfl)
  exact (hr _).2 ((hu _ _).2 h5)

/-- C11 at its failing input: the example receipt has the eligibility invariant (status `Yes`,
flag true); after the request `{"hsa_qualified": false}` the stored receipt has the flag false
with the status `Yes`, and the request answers 200.  The receipt built by `UploadHandler`
always has the invariant. -/
theorem hsa_qualified_update_breaks_eligibility :
    eligibilityInvariant exampleReceipt ∧
    ((UpdateReceiptHandler (journalFS noFaults) exampleParseDate "/data/hsa" clock2024
        clock2024 exampleDB [] 1 (some bodyNotQualified)).2.1.GetReceiptByID 1).map
        (fun r => (r.HSAQualified, r.HSAStatus, decide (eligibilityInvariant r)))
      = some (false, "Yes", false) ∧
    (UpdateReceiptHandler (journalFS noFaults) exampleParseDate "/data/hsa" clock2024
        clock2024 exampleDB [] 1 (some bodyNotQualified)).1.status = 200 ∧
    (∀ (σ : Type) (env : UploadEnv σ) (ocrResult : OCRResponse) (savePath imageHash : String),
      eligibilityInvariant (buildReceipt env ocrResult savePath imageHash)) :=
  ⟨by decide, by decide, by decide, fun _ env ocr p h => buildReceipt_eligibility env ocr p h⟩

/-! ## Archival-path consistency -/

theorem relocateOnToggle_same {σ H : Type} (fs : FileSystem σ H) (ReceiptDir : String)
    (now : Time) (wasUsed willBeUsed : Bool) (receipt : Receipt) (s : σ)
    (h : wasUsed = willBeUsed) :
    relocateOnToggle fs ReceiptDir now wasUsed willBeUsed receipt s = (receipt, s) := by
  unfold relocateOnToggle
  rw [if_neg (fun hc => hc.1 h)]

/-- An upload that is answered with a new receipt: the request carries a file, and the receipt
is the one built from an answer of the OCR service, saved under `uploadSavePath`, with the
digest of the uploaded bytes. -/
theorem UploadHandler_uploaded {σ H : Type} (fs : FileSystem σ H) (env : UploadEnv σ)
    (db : Database) (s : σ) (req : UploadRequest) (r : Receipt)
    (h : (UploadHandler fs env db s req).1 = Response.uploaded r) :
    ∃ (headerFilename : String) (fileData : List Nat) (ocrResult : OCRResponse),
      req.file = some (headerFilename, fileData) ∧
      r = (db.CreateReceipt (buildReceipt env ocrResult (uploadSavePath env headerFilename)
            (env.sha256hex fileData)) env.nowInsert).1 ∧
      (UploadHandler fs env db s req).2.1
        = (db.CreateReceipt (buildReceipt env ocrResult (uploadSavePath env headerFilename)
            (env.sha256hex fileData)) env.nowInsert).2 := by
  revert h
  unfold UploadHandler uploadSavePath
  repeat' first | split | (dsimp only; split)
  all_goals first
    | (intro h; simp at h; done)
    | (intro h
       simp only [Response.uploaded.injEq] at h
       exact ⟨_, _, _, by assumption, h.symm, rfl⟩)

/-- C12 as stated fails.  After an upload: a purchase of 2022 uploaded in 2024 is saved under
`unused/2024`.  After update requests answered with 200: a request that edits the purchase
date of the unused example receipt to 2021 leaves the file under `unused/2023`; a request that
marks the example receipt used while the file move fails stores `used = true` with the path
under `unused/2023`; a request that marks the used receipt of 2024 used again in 2025 stores
the usage date of 2025 and leaves the file under `used/2024`. -/
theorem archival_path_not_kept :
    ((UploadHandler (journalFS noFaults) (exampleEnv oldPurchaseOCR) ⟨[], 1⟩ []
        (exampleUpload [4, 5])).2.1.rows.map
        (fun r => (r.ImagePath, r.Date.year, r.Used,
          decide (archivalPathConsistent "/data/hsa" r)))
      = [("/data/hsa/unused/2024/1717200000_receipt.jpg", 2022, false, false)]) ∧
    archivalPathConsistent "/data/hsa" exampleReceipt ∧
    (((UpdateReceiptHandler (journalFS noFaults) exampleParseDate "/data/hsa" clock2024
        clock2024 exampleDB [] 1 (some bodyDate2021)).2.1.GetReceiptByID 1).map
        (fun r => (r.ImagePath, r.Date.year, r.Used,
          decide (archivalPathConsistent "/data/hsa" r)))
      = some ("/data/hsa/unused/2023/1700000000_receipt.jpg", 2021, false, false)) ∧
    (UpdateReceiptHandler (journalFS noFaults) exampleParseDate "/data/hsa" clock2024
        clock2024 exampleDB [] 1 (some bodyDate2021)).1.status = 200 ∧
    (((UpdateReceiptHandler (journalFS mkdirFails) exampleParseDate "/data/hsa" clock2024
        clock2024 exampleDB [] 1 (some bodyUsed)).2.1.GetReceiptByID 1).map
        (fun r => (r.ImagePath, r.Used, decide (archivalPathConsistent "/data/hsa" r)))
      = some ("/data/hsa/unused/2023/1700000000_receipt.jpg", true, false)) ∧
    (UpdateReceiptHandler (journalFS mkdirFails) exampleParseDate "/data/hsa" clock2024
        clock2024 exampleDB [] 1 (some bodyUsed)).1.status = 200 ∧
    archivalPathConsistent "/data/hsa" usedReceipt ∧
    (((UpdateReceiptHandler (journalFS noFaults) exampleParseDate "/data/hsa" clock2025
        clock2025 usedDB [] 1 (some bodyUsed)).2.1.GetReceiptByID 1).map
        (fun r => (r.ImagePath, r.Used, r.UsedDate.map Time.Year,
          decide (archivalPathConsistent "/data/hsa" r)))
      = some ("/data/hsa/used/2024/1700000000_receipt.jpg", true, some 2025, false)) ∧
    (UpdateReceiptHandler (journalFS noFaults) exampleParseDate "/data/hsa" clock2025
        clock2025 usedDB [] 1 (some bodyUsed)).1.status = 200 := by
  decide

/-- After a change of the used flag the archival year of the stored receipt is the year the
handler computes for the file path. -/
theorem archivalYear_of_toggle (now1 now2 : Time) (b : Bool) (updated row : Receipt)
    (hu : row.Used = b) (hud : row.UsedDate = if b then some now1 else none)
    (hd : row.Date = updated.Date)
    (hupd : updated.UsedDate = if b then some now1 else none) :
    archivalYear row = fileYear now2 b updated := by
  unfold archivalYear fileYear
  rw [hu, hud, hupd, hd]
  cases b <;> rfl

/-- The used flag of the updated receipt is the value of `willBeUsed`. -/
theorem applyUpdates_used_eq (parseDate : String → Option Time) (now : Time)
    (updates : String → Option JSONValue) (receipt : Receipt) :
    (applyUpdates parseDate now updates receipt).1.Used
      = (applyUpdates parseDate now updates receipt).2 := by
  obtain ⟨_, _, hsome, hnone, _⟩ := applyUpdates_fields parseDate now updates receipt
  cases hb : asBool (updates "used") with
  | none =>
    obtain ⟨h1, h2, _⟩ := hnone hb
    rw [h1, h2]
  | some b =>
    obtain ⟨h1, h2, _⟩ := hsome b hb
    rw [h1, h2]

/-- A request that does not change the used flag: no file is moved, the file system stays as
it is, and the stored receipt keeps its image path and takes the flag and the archival year of
the updated receipt. -/
theorem update_without_toggle {σ H : Type} (fs : FileSystem σ H)
    (parseDate : String → Option Time) (root : String) (now1 now2 : Time) (db : Database)
    (s : σ) (id : Int) (updates : String → Option JSONValue) (receipt : Receipt)
    (hget : db.GetReceiptByID id = some receipt)
    (hflag : (applyUpdates parseDate now1 updates receipt).2 = receipt.Used) :
    ∃ row : Receipt,
      (UpdateReceiptHandler fs parseDate root now1 now2 db s id
        (some updates)).2.1.GetReceiptByID id = some row ∧
      row.ImagePath = receipt.ImagePath ∧ row.Used = receipt.Used ∧
      archivalYear row = archivalYear (applyUpdates parseDate now1 updates receipt).1 ∧
      (UpdateReceiptHandler fs parseDate root now1 now2 db s id (some updates)).2.2 = s := by
  obtain ⟨hID, hp, _, _, _⟩ := applyUpdates_fields parseDate now1 updates receipt
  have hsame := relocateOnToggle_same fs root now2 receipt.Used
    (applyUpdates parseDate now1 updates receipt).2
    (applyUpdates parseDate now1 updates receipt).1 s hflag.symm
  rw [UpdateReceiptHandler_eq fs parseDate root now1 now2 db s id updates receipt hget, hsame]
  refine ⟨_, GetReceiptByID_UpdateReceipt db id receipt _ hget ?_, hp, ?_, rfl, rfl⟩
  · rw [hID]
    exact (GetReceiptByID_ID db id receipt hget).1
  · show (applyUpdates parseDate now1 updates receipt).1.Used = receipt.Used
    rw [applyUpdates_used_eq, hflag]

/-- A request that changes neither the used flag nor the archival year keeps the image path,
the flag, the archival year and with them the archival-path consistency. -/
theorem update_keeps_archival_path {σ H : Type} (fs : FileSystem σ H)
    (parseDate : String → Option Time) (root : String) (now1 now2 : Time) (db : Database)
    (s : σ) (id : Int) (updates : String → Option JSONValue) (receipt : Receipt)
    (hget : db.GetReceiptByID id = some receipt)
    (hflag : (applyUpdates parseDate now1 updates receipt).2 = receipt.Used)
    (hyear : archivalYear (applyUpdates parseDate now1 updates receipt).1
      = archivalYear receipt) :
    ∃ row : Receipt,
      (UpdateReceiptHandler fs parseDate root now1 now2 db s id
        (some updates)).2.1.GetReceiptByID id = some row ∧
      row.ImagePath = receipt.ImagePath ∧ row.Used = receipt.Used ∧
      archivalYear row = archivalYear receipt ∧
      (archivalPathConsistent root receipt → archivalPathConsistent root row) := by
  obtain ⟨row, hrow, hp, hu, hy, _⟩ := update_without_toggle fs parseDate root now1 now2 db s
    id updates receipt hget hflag
  refine ⟨row, hrow, hp, hu, by rw [hy, hyear], ?_⟩
  intro hcons
  unfold archivalPathConsistent at *
  rw [hp, hu, hy, hyear]
  exact hcons

/-- C12, amended (archival path after an update request; the path after an upload is left
out): for every stored receipt and every `UpdateReceiptHandler` request, (1) if the request
changes the used flag, the stored image has an ordinary base name `f` and the file move
succeeds, then the stored `image_path` is the canonical path of the new flag, the archival
year (usage-date year when used, purchase-date year when unused) and `f`, and the receipt is
archival-path consistent; (2) if the request does not change the used flag and leaves the
archival year as it was, then `image_path`, the flag and the archival year are unchanged and
a receipt that was consistent stays consistent; (3) in particular every request without a
boolean `used` on a used receipt with a usage date keeps the consistency, edits of the
purchase date included. -/
theorem archival_path_after_update :
    (∀ (σ H : Type) (fs : FileSystem σ H) (parseDate : String → Option Time) (root : String)
      (now1 now2 : Time) (db : Database) (s : σ) (id : Int)
      (updates : String → Option JSONValue) (receipt : Receipt) (b : Bool) (f : String),
      db.GetReceiptByID id = some receipt → asBool (updates "used") = some b →
      receipt.Used ≠ b → Base receipt.ImagePath = f → isElem f.data →
      (moveReceiptFile fs receipt.ImagePath root
        (fileYear now2 b (applyUpdates parseDate now1 updates receipt).1) f b s).1.2 = none →
      ∃ row : Receipt,
        (UpdateReceiptHandler fs parseDate root now1 now2 db s id
          (some updates)).2.1.GetReceiptByID id = some row ∧
        row.Used = b ∧ row.ImagePath = getReceiptFilePath root (archivalYear row) f b ∧
        archivalPathConsistent root row) ∧
    (∀ (σ H : Type) (fs : FileSystem σ H) (parseDate : String → Option Time) (root : String)
      (now1 now2 : Time) (db : Database) (s : σ) (id : Int)
      (updates : String → Option JSONValue) (receipt : Receipt),
      db.GetReceiptByID id = some receipt →
      (applyUpdates parseDate now1 updates receipt).2 = receipt.Used →
      archivalYear (applyUpdates parseDate now1 updates receipt).1 = archivalYear receipt →
      ∃ row : Receipt,
        (UpdateReceiptHandler fs parseDate root now1 now2 db s id
          (some updates)).2.1.GetReceiptByID id = some row ∧
        row.ImagePath = receipt.ImagePath ∧ row.Used = receipt.Used ∧
        archivalYear row = archivalYear receipt ∧
        (archivalPathConsistent root receipt → archivalPathConsistent root row)) ∧
    (∀ (σ H : Type) (fs : FileSystem σ H) (parseDate : String → Option Time) (root : String)
      (now1 now2 : Time) (db : Database) (s : σ) (id : Int)
      (updates : String → Option JSONValue) (receipt : Receipt) (usedDate : Time),
      db.GetReceiptByID id = some receipt → asBool (updates "used") = none →
      receipt.Used = true → receipt.UsedDate = some usedDate →
      archivalPathConsistent root receipt →
      ∃ row : Receipt,
        (UpdateReceiptHandler fs parseDate root now1 now2 db s id
          (some updates)).2.1.GetReceiptByID id = some row ∧
        row.ImagePath = receipt.ImagePath ∧ archivalPathConsistent root row) := by
  refine ⟨?_, ?_, ?_⟩
  · intro σ H fs parseDate root now1 now2 db s id updates receipt b f hget hb hchg hbase
      hname hmove
    obtain ⟨row, hrow, hu, hud, hp, hd, _⟩ := toggle_step fs parseDate root now1 now2 db s id
      updates receipt b f _ hget hb hchg hbase hname rfl hmove
    have hyear := archivalYear_of_toggle now1 now2 b
      (applyUpdates parseDate now1 updates receipt).1 row hu hud hd
      ((applyUpdates_fields parseDate now1 updates receipt).2.2.1 b hb).2.2
    have hp2 : row.ImagePath = getReceiptFilePath root (archivalYear row) f b := by
      rw [hp, hyear]
    refine ⟨row, hrow, hu, hp2, ?_⟩
    unfold archivalPathConsistent
    have hb2 : Base row.ImagePath = f := by
      rw [hp2]
      exact Base_getReceiptFilePath root _ f b hname
    rw [hb2, hu]
    exact hp2
  · intro σ H fs parseDate root now1 now2 db s id updates receipt hget hflag hyear
    exact update_keeps_archival_path fs parseDate root now1 now2 db s id updates receipt hget
      hflag hyear
  · intro σ H fs parseDate root now1 now2 db s id updates receipt usedDate hget hb hused
      hdate hcons
    obtain ⟨hw, hu, hud⟩ := (applyUpdates_fields parseDate now1 updates receipt).2.2.2.1 hb
    have hyear : archivalYear (applyUpdates parseDate now1 updates receipt).1
        = archivalYear receipt := by
      unfold archivalYear
      rw [hu, hud, hused, hdate]
    obtain ⟨row, hrow, hp, _, _, hkept⟩ := update_keeps_archival_path fs parseDate root now1
      now2 db s id updates receipt hget hw hyear
    exact ⟨row, hrow, hp, hkept hcons⟩

/-- C12, amended, on the example stores: marking the example receipt used in 2024 stores the
path under `used/2024`, consistent with its usage date; editing the purchase date of the used
receipt to 2021 leaves the path under `used/2024`, still consistent. -/
theorem archival_path_after_update_witness :
    (∃ row : Receipt,
      (UpdateReceiptHandler (journalFS noFaults) exampleParseDate "/data/hsa" clock2024
        clock2024 exampleDB [] 1 (some bodyUsed)).2.1.GetReceiptByID 1 = some row ∧
      row.Used = true ∧
      row.ImagePath = "/data/hsa/used/2024/1700000000_receipt.jpg" ∧
      archivalPathConsistent "/data/hsa" row) ∧
    (∃ row : Receipt,
      (UpdateReceiptHandler (journalFS noFaults) exampleParseDate "/data/hsa" clock2025
        clock2025 usedDB [] 1 (some bodyDate2021)).2.1.GetReceiptByID 1 = some row ∧
      row.ImagePath = "/data/hsa/used/2024/1700000000_receipt.jpg" ∧
      archivalPathConsistent "/data/hsa" row) := by
  constructor
  · obtain ⟨row, h1, h2, h3, h4⟩ :=
      archival_path_after_update.1 (List String) String (journalFS noFaults)
        exampleParseDate "/data/hsa" clock2024 clock2024 exampleDB [] 1 bodyUsed exampleReceipt
        true "1700000000_receipt.jpg" rfl rfl (by decide) (by decide) (by decide) (by decide)
    refine ⟨row, h1, h2, ?_, h4⟩
    have hy : archivalYear row = 2024 := by
      have hrow : ((UpdateReceiptHandler (journalFS noFaults) exampleParseDate "/data/hsa"
          clock2024 clock2024 exampleDB [] 1 (some bodyUsed)).2.1.GetReceiptByID 1).map
          archivalYear = some 2024 := by decide
      rw [h1] at hrow
      simpa using hrow
    rw [h3, hy]
    decide
  · exact archival_path_after_update.2.2 (List String) String (journalFS noFaults)
      exampleParseDate "/data/hsa" clock2025 clock2025 usedDB [] 1 bodyDate2021 usedReceipt
      clock2024 rfl rfl rfl rfl (by decide)

/-! ## The duplicate guard -/

theorem find?_of_exists {α : Type} (p : α → Bool) (l : List α) (h : ∃ x ∈ l, p x = true) :
    ∃ y ∈ l, p y = true ∧ l.find? p = some y := by
  cases hf : l.find? p with
  | none =>
    obtain ⟨x, hx, hpx⟩ := h
    have := List.find?_eq_none.1 hf x hx
    exact absurd hpx this
  | some y => exact ⟨y, List.mem_of_find?_eq_some hf, List.find?_some hf, rfl⟩

/-- C13 (duplicate guard admission): for every store and every upload request that carries a
readable file, (1) if the store holds a receipt whose `image_hash` is the digest of the
uploaded bytes, `UploadHandler` answers the duplicate conflict with a stored receipt of that
digest, and leaves the store and the file system as they are; (2) if no stored receipt has
the digest, the file is saved and the OCR service answers, and the store holds a receipt with
the vendor and the purchase date of the new receipt and an amount at a distance strictly below
0.01 from the new amount, `UploadHandler` answers the duplicate conflict with a stored receipt
of that kind and creates no record. -/
theorem duplicate_guard_admission {σ H : Type} (fs : FileSystem σ H) (env : UploadEnv σ)
    (db : Database) (s : σ) (req : UploadRequest) (headerFilename : String)
    (fileData : List Nat)
    (hpost : req.Method = "POST") (hform : req.formOK = true)
    (hfile : req.file = some (headerFilename, fileData)) (hread : req.readOK = true) :
    ((∃ r ∈ db.rows, r.ImageHash = env.sha256hex fileData) →
      ∃ existing ∈ db.rows, existing.ImageHash = env.sha256hex fileData ∧
        UploadHandler fs env db s req
          = (Response.duplicate "This receipt has already been uploaded" existing, db, s)) ∧
    (∀ (outFile : H) (ocrResult : OCRResponse) (s1 s2 s3 s4 : σ),
      (∀ r ∈ db.rows, r.ImageHash ≠ env.sha256hex fileData) →
      ensureDirectoryExists fs (uploadSavePath env headerFilename) s = (none, s1) →
      fs.Create (uploadSavePath env headerFilename) s1 = (Except.ok outFile, s2) →
      fs.Write outFile fileData s2 = (none, s3) →
      env.callOCRService (uploadSavePath env headerFilename) env.OCRServiceURL s3
        = (Except.ok ocrResult, s4) →
      (∃ r ∈ db.rows, r.Vendor = ocrResult.Vendor ∧
        |r.TotalAmount - ocrResult.Amount| < 1 / 100 ∧
        r.Date = (buildReceipt env ocrResult (uploadSavePath env headerFilename)
          (env.sha256hex fileData)).Date) →
      ∃ existing ∈ db.rows, existing.Vendor = ocrResult.Vendor ∧
        |existing.TotalAmount - ocrResult.Amount| < 1 / 100 ∧
        existing.Date = (buildReceipt env ocrResult (uploadSavePath env headerFilename)
          (env.sha256hex fileData)).Date ∧
        UploadHandler fs env db s req
          = (Response.duplicate
              "A similar receipt already exists (same vendor, amount, and date)" existing,
            db, fs.Close outFile s4)) := by
  constructor
  · intro hex
    obtain ⟨y, hy, hpy, hfind⟩ := find?_of_exists
      (fun r : Receipt => r.ImageHash == env.sha256hex fileData) db.rows
      (by obtain ⟨r, hr, hh⟩ := hex; exact ⟨r, hr, by simpa using hh⟩)
    refine ⟨y, hy, by simpa using hpy, ?_⟩
    have hget : db.GetReceiptByImageHash (env.sha256hex fileData) = some y := hfind
    unfold UploadHandler
    simp only [hpost, hform, hfile, hread, hget]
    simp
  · intro outFile ocrResult s1 s2 s3 s4 hnohash hmk hcr hwr hocr hex
    have hget : db.GetReceiptByImageHash (env.sha256hex fileData) = none := by
      unfold Database.GetReceiptByImageHash
      apply List.find?_eq_none.2
      intro r hr
      simpa using hnohash r hr
    obtain ⟨y, hy, hpy, hfind⟩ := find?_of_exists
      (fun r : Receipt => r.Vendor == ocrResult.Vendor &&
        decide (|r.TotalAmount - ocrResult.Amount| < 1 / 100) &&
        r.Date == (buildReceipt env ocrResult (uploadSavePath env headerFilename)
          (env.sha256hex fileData)).Date) db.rows
      (by
        obtain ⟨r, hr, h1, h2, h3⟩ := hex
        refine ⟨r, hr, ?_⟩
        simp only [Bool.and_eq_true, beq_iff_eq, decide_eq_true_eq]
        exact ⟨⟨h1, h2⟩, h3⟩)
    have hdup : db.GetDuplicateReceipt ocrResult.Vendor ocrResult.Amount
        (buildReceipt env ocrResult (uploadSavePath env headerFilename)
          (env.sha256hex fileData)).Date = some y := hfind
    simp only [Bool.and_eq_true, beq_iff_eq, decide_eq_true_eq] at hpy
    refine ⟨y, hy, hpy.1.1, hpy.1.2, hpy.2, ?_⟩
    unfold uploadSavePath at hmk hcr hocr hdup
    unfold UploadHandler
    simp only [hpost, hform, hfile, hread, hget, hmk, hcr, hwr, hocr, hdup]
    simp

/-- C13, on the example store: an upload of the bytes whose digest is that of the example
receipt, and an upload of another photo that the OCR service reads as the same vendor and date
with an amount half a cent away, are both answered 409 and leave the store as it is. -/
theorem duplicate_guard_admission_witness :
    ((UploadHandler (journalFS noFaults) (exampleEnv exampleOCR) exampleDB []
        (exampleUpload [1, 2, 3])).1.status = 409 ∧
      (UploadHandler (journalFS noFaults) (exampleEnv exampleOCR) exampleDB []
        (exampleUpload [1, 2, 3])).2.1.rows = exampleDB.rows) ∧
    ((UploadHandler (journalFS noFaults) (exampleEnv exampleOCR) exampleDB []
        (exampleUpload [4, 5])).1.status = 409 ∧
      (UploadHandler (journalFS noFaults) (exampleEnv exampleOCR) exampleDB []
        (exampleUpload [4, 5])).2.1.rows = exampleDB.rows) := by
  constructor
  · obtain ⟨e, _, _, heq⟩ :=
      (duplicate_guard_admission (journalFS noFaults) (exampleEnv exampleOCR) exampleDB []
        (exampleUpload [1, 2, 3]) "receipt.jpg" [1, 2, 3] rfl rfl rfl rfl).1
        ⟨exampleReceipt, List.mem_singleton.2 rfl, by decide⟩
    rw [heq]
    exact ⟨rfl, rfl⟩
  · obtain ⟨e, _, _, _, _, heq⟩ :=
      (duplicate_guard_admission (journalFS noFaults) (exampleEnv exampleOCR) exampleDB []
        (exampleUpload [4, 5]) "receipt.jpg" [4, 5] rfl rfl rfl rfl).2
        "/data/hsa/unused/2024/1717200000_receipt.jpg" exampleOCR _ _ _ _
        (by decide) rfl rfl rfl rfl
        ⟨exampleReceipt, List.mem_singleton.2 rfl, rfl,
          by norm_num [exampleReceipt, exampleOCR, abs_lt], by decide⟩
    rw [heq]
    exact ⟨rfl, rfl⟩
end HSA
